import Mathlib

set_option maxRecDepth 100000

/-! goradius: the RADIUS packet codec

A shallow embedding of the packet codec of `alouca/goradius`
(`goradius.go`, `radiuspacket.go`, `parsers.go`) and theorems about it.

Conventions of the embedding

* A Go `byte` is a natural number below 256; a `[]byte` that is only read
  through its length is a `List Nat`.  Conversions that narrow a wider
  integer (`byte(p.Code)`, shifts of a `uint8`) carry an explicit `%`.
* A Go `string` that is processed byte by byte (the shared secret, decoded
  text) is the list of its bytes; names that are only copied and compared
  (attribute names, content types) are Lean strings.
* A Go slice can be re-sliced up to its capacity, so the datagram handed to
  `ParseRadiusPacket` is a `Slice`: the visible bytes and the bytes of the
  backing array behind them.
* A run-time panic (index or slice out of range, call of a nil function) is
  `none` for the straight-line functions and `Run.panic` for the ones that
  loop; `Run.fuel` is the model running out of steps, which
  `ParseRadiusPacket` never does.
* `crypto/md5` belongs to the Go standard library; the codec takes the digest
  function as the parameter `md5`.  `MD5.sum` is RFC 1321, used to
  instantiate it.
* The logger only records: `l.Debug` and `l.Error` leave no trace in the
  model, `l.Fatal` is recorded in the result of `ParseRadiusPacket`.
-/

namespace Radius

/-! ## RFC 1321 (the digest of Go's `crypto/md5`) -/

namespace MD5

/-- Per-round left-rotation amounts. -/
def shifts : List Nat :=
  [7, 12, 17, 22, 7, 12, 17, 22, 7, 12, 17, 22, 7, 12, 17, 22,
   5, 9, 14, 20, 5, 9, 14, 20, 5, 9, 14, 20, 5, 9, 14, 20,
   4, 11, 16, 23, 4, 11, 16, 23, 4, 11, 16, 23, 4, 11, 16, 23,
   6, 10, 15, 21, 6, 10, 15, 21, 6, 10, 15, 21, 6, 10, 15, 21]

/-- The sine table: entry `i` is `floor(2^32 * |sin(i + 1)|)`. -/
def sines : List Nat :=
  [0xd76aa478, 0xe8c7b756, 0x242070db, 0xc1bdceee, 0xf57c0faf, 0x4787c62a, 0xa8304613, 0xfd469501,
   0x698098d8, 0x8b44f7af, 0xffff5bb1, 0x895cd7be, 0x6b901122, 0xfd987193, 0xa679438e, 0x49b40821,
   0xf61e2562, 0xc040b340, 0x265e5a51, 0xe9b6c7aa, 0xd62f105d, 0x02441453, 0xd8a1e681, 0xe7d3fbc8,
   0x21e1cde6, 0xc33707d6, 0xf4d50d87, 0x455a14ed, 0xa9e3e905, 0xfcefa3f8, 0x676f02d9, 0x8d2a4c8a,
   0xfffa3942, 0x8771f681, 0x6d9d6122, 0xfde5380c, 0xa4beea44, 0x4bdecfa9, 0xf6bb4b60, 0xbebfbc70,
   0x289b7ec6, 0xeaa127fa, 0xd4ef3085, 0x04881d05, 0xd9d4d039, 0xe6db99e5, 0x1fa27cf8, 0xc4ac5665,
   0xf4292244, 0x432aff97, 0xab9423a7, 0xfc93a039, 0x655b59c3, 0x8f0ccc92, 0xffeff47d, 0x85845dd1,
   0x6fa87e4f, 0xfe2ce6e0, 0xa3014314, 0x4e0811a1, 0xf7537e82, 0xbd3af235, 0x2ad7d2bb, 0xeb86d391]

/-- Rotation of a 32-bit word to the left. -/
def rotl (x s : Nat) : Nat :=
  ((x <<< s) % 2 ^ 32) ||| (x >>> (32 - s))

/-- Complement of a 32-bit word. -/
def not32 (x : Nat) : Nat := x ^^^ 0xffffffff

/-- Little-endian word of four bytes. -/
def word (bs : List Nat) : Nat :=
  bs.getD 0 0 + bs.getD 1 0 * 2 ^ 8 + bs.getD 2 0 * 2 ^ 16 + bs.getD 3 0 * 2 ^ 24

/-- The four little-endian bytes of a 32-bit word. -/
def wordBytes (w : Nat) : List Nat :=
  [w % 256, w / 2 ^ 8 % 256, w / 2 ^ 16 % 256, w / 2 ^ 24 % 256]

/-- The eight little-endian bytes of the message length in bits. -/
def lengthBytes (n : Nat) : List Nat :=
  (List.range 8).map fun i => n / 2 ^ (8 * i) % 256

/-- The message, the byte 0x80, zeros up to 56 modulo 64, and the length. -/
def pad (msg : List Nat) : List Nat :=
  msg ++ [0x80] ++ List.replicate ((119 - msg.length % 64) % 64) 0
    ++ lengthBytes (8 * msg.length % 2 ^ 64)

/-- The state of the digest: the four chaining words. -/
structure State where
  a : Nat
  b : Nat
  c : Nat
  d : Nat

/-- One of the 64 operations of a block. -/
def step (m : List Nat) (st : State) (i : Nat) : State :=
  let f :=
    if i < 16 then (st.b &&& st.c) ||| (not32 st.b &&& st.d)
    else if i < 32 then (st.d &&& st.b) ||| (not32 st.d &&& st.c)
    else if i < 48 then st.b ^^^ st.c ^^^ st.d
    else st.c ^^^ (st.b ||| not32 st.d)
  let g :=
    if i < 16 then i
    else if i < 32 then (5 * i + 1) % 16
    else if i < 48 then (3 * i + 5) % 16
    else (7 * i) % 16
  let f := (f + st.a + sines.getD i 0 + m.getD g 0) % 2 ^ 32
  ⟨st.d, (st.b + rotl f (shifts.getD i 0)) % 2 ^ 32, st.b, st.c⟩

/-- One 64-byte block folded into the chaining words. -/
def block (st : State) (bytes : List Nat) : State :=
  let m := (List.range 16).map fun k => word ((bytes.drop (4 * k)).take 4)
  let r := (List.range 64).foldl (step m) st
  ⟨(st.a + r.a) % 2 ^ 32, (st.b + r.b) % 2 ^ 32, (st.c + r.c) % 2 ^ 32, (st.d + r.d) % 2 ^ 32⟩

/-- The digest of a message: sixteen bytes. -/
def sum (msg : List Nat) : List Nat :=
  let padded := pad (msg.map (· % 256))
  let st := (List.range (padded.length / 64)).foldl
    (fun st k => block st ((padded.drop (64 * k)).take 64))
    ⟨0x67452301, 0xefcdab89, 0x98badcfe, 0x10325476⟩
  wordBytes st.a ++ wordBytes st.b ++ wordBytes st.c ++ wordBytes st.d

end MD5

/-- The bytes of a Go string literal. -/
def bytesOf (s : String) : List Nat :=
  (s.toList.flatMap String.utf8EncodeChar).map UInt8.toNat

/-! ## Data model (`radiuspacket.go`, `goradius.go`) -/

/-- Outcome of a looping function of the codec. -/
inductive Run (α : Type) where
  /-- The call returned. -/
  | ok (a : α)
  /-- A Go run-time panic. -/
  | panic
  /-- The model ran out of steps. -/
  | fuel
  deriving DecidableEq

/-- A Go `[]byte`: the `len` visible bytes and the bytes of the backing
array from `len` up to `cap`. -/
structure Slice where
  elems : List Nat
  spare : List Nat
  deriving DecidableEq

namespace Slice

/-- Go `len(s)`. -/
def len (s : Slice) : Nat := s.elems.length

/-- Go `cap(s)`. -/
def cap (s : Slice) : Nat := s.elems.length + s.spare.length

/-- Go `s[i]`: in range when `i < len(s)`. -/
def index (s : Slice) (i : Nat) : Option Nat := s.elems[i]?

/-- Go `s[lo:hi]`: in range when `lo <= hi <= cap(s)`. -/
def slice (s : Slice) (lo hi : Nat) : Option Slice :=
  if lo ≤ hi ∧ hi ≤ s.cap then
    some ⟨((s.elems ++ s.spare).drop lo).take (hi - lo), (s.elems ++ s.spare).drop hi⟩
  else none

/-- Go `s[lo:]`: in range when `lo <= len(s)`. -/
def sliceFrom (s : Slice) (lo : Nat) : Option Slice :=
  if lo ≤ s.len then some ⟨s.elems.drop lo, s.spare⟩ else none

end Slice

/-- The dynamic values an `interface{}` holds in this package. -/
inductive Value where
  /-- The nil interface. -/
  | nil
  /-- A `[]byte`. -/
  | bytes (b : List Nat)
  /-- A `string`, as its bytes. -/
  | str (s : List Nat)
  | uint8 (n : Nat)
  | uint32 (n : Nat)
  | uint64 (n : Nat)
  /-- The struct `VSA`. -/
  | vsa (Name : String) (Value : Value)
  deriving DecidableEq

/-- Attribute-Value Pair structure. -/
structure AttributeValuePair where
  Name : String
  /-- The field `Type` of the source (a reserved word here). -/
  Type_ : String
  Length : Nat
  Content : Value
  deriving DecidableEq

/-- A `net.UDPAddr`, by the text its `IP.String()` yields and its port. -/
structure UDPAddr where
  IP : String
  Port : Nat
  deriving DecidableEq

/-- The struct `RadiusPacket`; a nil `Originator` or `Authenticator` is `none`. -/
structure RadiusPacket where
  Originator : Option UDPAddr
  SharedSecret : List Nat
  Code : Nat
  PacketType : String
  PacketId : Nat
  Authenticator : Option (List Nat)
  AVPS : List AttributeValuePair
  Raw : Slice
  deriving DecidableEq

/-- Go `new(RadiusPacket)`: every field at its zero value. -/
def RadiusPacket.new : RadiusPacket :=
  ⟨none, [], 0, "", 0, none, [], ⟨[], []⟩⟩

/-- RADIUS Dictionary (RFC2865 + RFC2866). -/
structure RadiusDictionary where
  Attribute : Int
  Name : String
  ContentType : String
  deriving DecidableEq

/-- Type-Length-Value Structure. -/
structure TLV where
  /-- The field `Type` of the source (a reserved word here). -/
  Type_ : Nat
  Name : String
  ContentType : String
  deriving DecidableEq

/-- Vendor-Specific Attribute Dictionary. -/
structure VendorDictionary where
  VendorID : Int
  Name : String
  TLVs : List TLV
  TLVMap : Int → Option TLV

/-- Marshaller signature; `none` is a panic inside the marshaller. -/
abbrev MarshalHelper := AttributeValuePair → RadiusPacket → Option (List Nat)

/-- Radius Shared-Secret Provider Signature. -/
abbrev SharedSecretProvider := String → List Nat

/-- The content parsers a name can be registered to: the nine functions of
`parsers.go` and any other function given to `RegisterParser`. -/
inductive ContentParser where
  | VendorParser
  | IPParser
  | AcctStatusTypeParser
  | ParseUint16
  | ParseUint32
  | ParseString
  | ParseUserPassword
  | ParseUvarint
  | FallbackParser
  | custom (f : List Nat → RadiusPacket → Option Value)

/-- The package-level maps as the codec reads them; a key that is absent is
`none`, and so is every key of a map that is still nil. -/
structure Maps where
  radiusMap : Int → Option RadiusDictionary
  vendorMap : Int → Option VendorDictionary
  parserMap : String → Option ContentParser
  marshalMap : String → Option MarshalHelper

/-- The table `packetCodes`. -/
def packetCodes : Nat → Option String
  | 1 => some "Access-Request"
  | 2 => some "Access-Accept"
  | 3 => some "Access-Reject"
  | 4 => some "Accounting-Request"
  | 5 => some "Accounting-Response"
  | 6 => some "Accounting-Status"
  | 7 => some "Password-Request"
  | 8 => some "Password-Ack"
  | 9 => some "Password-Reject"
  | 10 => some "Accounting-Message"
  | 11 => some "Access-Challenge"
  | 12 => some "Status-Server"
  | 13 => some "Status-Client"
  | 28 => some "Reserved"
  | 29 => some "Next-Passcode"
  | 30 => some "New-Pin"
  | 255 => some "Reserved"
  | _ => none

/-! ## `radiuspacket.go` -/

/-- The comparison loop of `VerifyAuthenticator`: `n` iterations from `i`. -/
def verifyLoop (raw : Slice) (ours : List Nat) : Nat → Nat → Option Bool
  | 0, _ => some true
  | n + 1, i =>
    match raw.index (4 + i), ours[i]? with
    | some r, some o => if r ≠ o then some false else verifyLoop raw ours n (i + 1)
    | _, _ => none

/-- Verifies the Authenticator Field if it matches our shared-secret. -/
def VerifyAuthenticator (md5 : List Nat → List Nat) (p : RadiusPacket) : Option Bool :=
  match p.Raw.slice 0 4, p.Raw.sliceFrom 20 with
  | some head, some attrs =>
    let ours := md5 (head.elems ++ List.replicate 16 0 ++ attrs.elems ++ p.SharedSecret)
    verifyLoop p.Raw ours 16 0
  | _, _ => none

/-- The loop of `Marshal` over `p.AVPS`, appending to the buffer `avps`. -/
def marshalAVPs (marshalMap : String → Option MarshalHelper) (p : RadiusPacket) :
    List AttributeValuePair → List Nat → Option (List Nat)
  | [], avps => some avps
  | avp :: rest, avps =>
    match marshalMap avp.Name with
    | some m =>
      match m avp p with
      | some avpBytes => marshalAVPs marshalMap p rest (avps ++ avpBytes)
      | none => none
    | none => marshalAVPs marshalMap p rest avps

/-- The loop of `Marshal` that fills a fresh authenticator from `randInts`:
`n` iterations from `i`. -/
def fillAuthenticator (randInts : List Nat) : Nat → Nat → List Nat → Option (List Nat)
  | 0, _, auth => some auth
  | n + 1, i, auth =>
    match randInts[i]? with
    | some r => fillAuthenticator randInts n (i + 1) (auth.set 0 (r % 256))
    | none => none

/-- The method `Marshal`: the bytes returned and the packet as the call
leaves it.  `randInts` is what `rand.Perm(16)` returns. -/
def Marshal (md5 : List Nat → List Nat) (marshalMap : String → Option MarshalHelper)
    (randInts : List Nat) (p : RadiusPacket) : Option (List Nat × RadiusPacket) :=
  let packet := [p.Code % 256, p.PacketId % 256]
  match marshalAVPs marshalMap p p.AVPS [] with
  | none => none
  | some avps =>
    let packetLen := (4 + 16 + avps.length % 65536) % 65536
    let packet := packet ++ [packetLen / 256, packetLen % 256]
    match p.Authenticator with
    | none =>
      match fillAuthenticator randInts 16 0 (List.replicate 16 0) with
      | none => none
      | some auth => some (packet ++ auth ++ avps, { p with Authenticator := some auth })
    | some authenticator =>
      let digest := md5 (packet.take 4 ++ authenticator ++ avps ++ p.SharedSecret)
      some (packet ++ digest ++ avps, { p with Authenticator := some digest })

/-! ## `parsers.go` -/

/-- Accounting Status Parser. -/
def AcctStatusTypeParser (b : List Nat) : Option Value :=
  match b[3]?, b[2]?, b[1]?, b[0]? with
  | some b3, some b2, some b1, some b0 =>
    let status := b3 ||| (b2 <<< 8) % 2 ^ 32 ||| (b1 <<< 16) % 2 ^ 32 ||| (b0 <<< 24) % 2 ^ 32
    let strStatus :=
      match status with
      | 1 => "Start"
      | 2 => "Stop"
      | 3 => "Interim-Update"
      | 4 => "Accounting-On"
      | 5 => "Accounting-Off"
      | _ => "Unknown"
    some (Value.str (bytesOf (strStatus ++ "(" ++ toString status ++ ")")))
  | _, _, _, _ => none

/-- The function `FallbackParser`. -/
def FallbackParser (content : List Nat) : Option Value :=
  some (Value.bytes content)

/-- The inner loop of `ParseUserPassword` over `j`, `n` iterations left;
`acc` is `xor_result[0:j]`.  The result is the `xor_result` written out. -/
def xorBlock (content hash : List Nat) (i : Nat) : Nat → Nat → List Nat → Option (List Nat)
  | 0, _, acc => some acc
  | n + 1, j, acc =>
    match content[i + j]?, hash[j]? with
    | some c, some h =>
      if c ^^^ h = 0 then some acc
      else xorBlock content hash i n (j + 1) (acc ++ [c ^^^ h])
    | _, _ => none

/-- The outer loop of `ParseUserPassword` over `i`, `n` iterations left. -/
def passwordLoop (md5 : List Nat → List Nat) (secret content : List Nat) :
    Nat → Nat → List Nat → List Nat → Option (List Nat)
  | 0, _, _, ret => some ret
  | n + 1, i, secondPart, ret =>
    let hash := md5 (secret ++ secondPart)
    match xorBlock content hash i 16 0 [] with
    | none => none
    | some xor_result =>
      passwordLoop md5 secret content n (i + 16)
        (if content.length > 16 then (content.drop i).take 16 else secondPart)
        (ret ++ xor_result)

/-- The function `ParseUserPassword`. -/
def ParseUserPassword (md5 : List Nat → List Nat) (content : List Nat) (r : RadiusPacket) :
    Option Value :=
  if content.length < 16 then some Value.nil
  else if content.length > 128 then some Value.nil
  else if content.length % 16 ≠ 0 then some Value.nil
  else
    match passwordLoop md5 r.SharedSecret content (content.length / 16) 0
        (r.Authenticator.getD []) [] with
    | none => none
    | some ret => some (Value.str ret)

/-- Parses IP Addresses. -/
def IPParser (content : List Nat) : Option Value :=
  match content[0]?, content[1]?, content[2]?, content[3]? with
  | some c0, some c1, some c2, some c3 =>
    some (Value.str (bytesOf
      (toString c0 ++ "." ++ toString c1 ++ "." ++ toString c2 ++ "." ++ toString c3)))
  | _, _, _, _ => none

/-- Parses UINT16. -/
def ParseUint16 (content : List Nat) : Option Value :=
  match content[1]?, content[0]? with
  | some c1, some c0 => some (Value.uint8 (c1 ||| (c0 <<< 8) % 2 ^ 8))
  | _, _ => none

/-- Parses UINT32. -/
def ParseUint32 (content : List Nat) : Option Value :=
  match content[3]?, content[2]?, content[1]?, content[0]? with
  | some c3, some c2, some c1, some c0 =>
    some (Value.uint32 (c3 ||| (c2 <<< 8) % 2 ^ 32 ||| (c1 <<< 16) % 2 ^ 32 ||| (c0 <<< 24) % 2 ^ 32))
  | _, _, _, _ => none

/-- The loop shared by `Uvarint` and `ParseUvarint`, at index `i`. -/
def uvarintLoop : List Nat → Nat → Nat → Nat
  | [], _, x => x
  | b :: rest, i, x =>
    if i = 7 then ((x <<< 8) + b) % 2 ^ 64
    else uvarintLoop rest (i + 1) (((x <<< 8) + b) % 2 ^ 64)

/-- The function `Uvarint` of `goradius.go`. -/
def Uvarint (buf : List Nat) : Nat := uvarintLoop buf 0 0

/-- The function `ParseUvarint`. -/
def ParseUvarint (buf : List Nat) : Option Value :=
  some (Value.uint64 (uvarintLoop buf 0 0))

/-- The function `HelperParseUint16` of `goradius.go`. -/
def HelperParseUint16 (content : List Nat) : Option Nat :=
  match content[1]?, content[0]? with
  | some c1, some c0 => some (c1 ||| (c0 <<< 8) % 2 ^ 8)
  | _, _ => none

/-- Parses Strings. -/
def ParseString (content : List Nat) : Option Value :=
  some (Value.str content)

/-- A straight-line result as the result of a looping function. -/
def Run.ofOption {α : Type} : Option α → Run α
  | some a => Run.ok a
  | none => Run.panic

/-- Parses vendor-specific attribute (VSA).  `call` runs the parser found in
`parserMap` for the sub-attribute. -/
def VendorParser (vendorMap : Int → Option VendorDictionary)
    (parserMap : String → Option ContentParser)
    (call : ContentParser → List Nat → RadiusPacket → Run Value)
    (avpContent : List Nat) (rp : RadiusPacket) : Run Value :=
  match avpContent[3]?, avpContent[2]?, avpContent[1]?, avpContent[0]?,
      avpContent[4]?, avpContent[5]? with
  | some a3, some a2, some a1, some a0, some vendorType, some _vendorLength =>
    let vendor := a3 ||| (a2 <<< 8) % 2 ^ 32 ||| (a1 <<< 16) % 2 ^ 32 ||| (a0 <<< 24) % 2 ^ 32
    match vendorMap (Int.ofNat vendor) with
    | some v =>
      match v.TLVMap (Int.ofNat vendorType) with
      | some tlv =>
        match parserMap tlv.ContentType with
        | some parser =>
          match call parser (avpContent.drop 6) rp with
          | Run.ok value => Run.ok (Value.vsa tlv.Name value)
          | Run.panic => Run.panic
          | Run.fuel => Run.fuel
        | none => Run.panic
      | none => Run.ok (Value.vsa "" Value.nil)
    | none => Run.ok (Value.vsa "" Value.nil)
  | _, _, _, _, _, _ => Run.panic

/-- The call `parser(content, p)` of a registered parser.  A `VendorParser`
can reach itself through `parserMap`; each such call uses one unit of fuel. -/
def runParser (md5 : List Nat → List Nat) (vendorMap : Int → Option VendorDictionary)
    (parserMap : String → Option ContentParser) :
    Nat → ContentParser → List Nat → RadiusPacket → Run Value
  | 0, _, _, _ => Run.fuel
  | fuel + 1, parser, content, r =>
    match parser with
    | ContentParser.VendorParser =>
      VendorParser vendorMap parserMap (runParser md5 vendorMap parserMap fuel) content r
    | ContentParser.IPParser => Run.ofOption (IPParser content)
    | ContentParser.AcctStatusTypeParser => Run.ofOption (AcctStatusTypeParser content)
    | ContentParser.ParseUint16 => Run.ofOption (ParseUint16 content)
    | ContentParser.ParseUint32 => Run.ofOption (ParseUint32 content)
    | ContentParser.ParseString => Run.ofOption (ParseString content)
    | ContentParser.ParseUserPassword => Run.ofOption (ParseUserPassword md5 content r)
    | ContentParser.ParseUvarint => Run.ofOption (ParseUvarint content)
    | ContentParser.FallbackParser => Run.ofOption (FallbackParser content)
    | ContentParser.custom f => Run.ofOption (f content r)

/-! ## `goradius.go` -/

/-- The struct `GoRadius` (its connection left out); a nil `SharedSecret` is `none`. -/
structure GoRadius where
  SharedSecret : Option SharedSecretProvider

/-- The map assignment `m[k] = v`. -/
def mapSet {α : Type} (m : Int → Option α) (k : Int) (v : α) : Int → Option α :=
  fun key => if key = k then some v else m key

/-- The default parsers `NewGoRadius` registers. -/
def defaultParserMap : String → Option ContentParser := fun name =>
  if name = "VSA" then some ContentParser.VendorParser
  else if name = "IP" then some ContentParser.IPParser
  else if name = "Acct-Status-Type" then some ContentParser.AcctStatusTypeParser
  else if name = "uint16" then some ContentParser.ParseUint16
  else if name = "uint32" then some ContentParser.ParseUint32
  else if name = "string" then some ContentParser.ParseString
  else if name = "userpassword" then some ContentParser.ParseUserPassword
  else if name = "uvarint" then some ContentParser.ParseUvarint
  else if name = "fallback" then some ContentParser.FallbackParser
  else none

/-- The loop of `NewGoRadius` that fills `vsa.TLVMap` from `vsa.TLVs`. -/
def loadTLVMap (tlvs : List TLV) : Int → Option TLV :=
  tlvs.foldl (fun t tlv => mapSet t (Int.ofNat tlv.Type_) tlv) (fun _ => none)

/-- The maps as `NewGoRadius` leaves them, from the two dictionaries already
read from their files.  `StringMarshaller` is the marshaller registered for
`"string"`. -/
def NewGoRadius (radiusData : List RadiusDictionary) (vendorData : List VendorDictionary)
    (StringMarshaller : MarshalHelper) : Maps :=
  ⟨radiusData.foldl (fun m attr => mapSet m attr.Attribute attr) (fun _ => none),
   vendorData.foldl
    (fun m vsa => mapSet m vsa.VendorID ⟨vsa.VendorID, vsa.Name, vsa.TLVs, loadTLVMap vsa.TLVs⟩)
    (fun _ => none),
   defaultParserMap,
   fun name => if name = "string" then some StringMarshaller else none⟩

/-- The package-level variable `parserMap` as `RegisterParser` finds it:
`none` is the nil map it is until `NewGoRadius` assigns it. -/
abbrev Registry := Option (String → Option ContentParser)

/-- The lookup `parserMap[name]`; a nil map misses every key. -/
def registryGet (parserMap : Registry) (name : String) : Option ContentParser :=
  match parserMap with
  | some m => m name
  | none => none

/-- Registers a new AVP Parser.  The result is `none` when the call panics
(the assignment `parserMap[name] = parser` on the nil map); otherwise it is
the error returned (`none` for a nil error) and `parserMap` as the call
leaves it.  A nil `parser` is `none`. -/
def RegisterParser (parserMap : Registry) (name : String) (parser : Option ContentParser) :
    Option (Option String × Registry) :=
  match registryGet parserMap name with
  | some _ =>
    some (some ("Parser with name " ++ name ++ " is already registered\n"), parserMap)
  | none =>
    match parser with
    | none => some (some "Parser function cannot be null\n", parserMap)
    | some f =>
      match parserMap with
      | some m => some (none, some (fun key => if key = name then some f else m key))
      | none => none

/-- What `ParseRadiusPacket` leaves behind: the packet it returns, and whether
it reported the length mismatch through `l.Fatal`. -/
structure Parsed where
  packet : RadiusPacket
  fatal : Bool
  deriving DecidableEq

/-- The `if`/`else` of the loop body of `ParseRadiusPacket`: the name, the
content type and the parsed content of one AVP. -/
def parseContent (md5 : List Nat → List Nat) (m : Maps) (p : RadiusPacket)
    (avpType : Nat) (avpContent : Slice) : Run (String × String × Value) :=
  match m.radiusMap (Int.ofNat avpType) with
  | some avp =>
    match m.parserMap avp.ContentType with
    | some parser =>
      match runParser md5 m.vendorMap m.parserMap (avpContent.len + 1) parser
          avpContent.elems p with
      | Run.ok parsedContent => Run.ok (avp.Name, avp.ContentType, parsedContent)
      | Run.panic => Run.panic
      | Run.fuel => Run.fuel
    | none => Run.panic
  | none =>
    match m.parserMap "fallback" with
    | some parser =>
      match runParser md5 m.vendorMap m.parserMap (avpContent.len + 1) parser
          avpContent.elems p with
      | Run.ok parsedContent => Run.ok ("unknown", "fallback", parsedContent)
      | Run.panic => Run.panic
      | Run.fuel => Run.fuel
    | none => Run.panic

/-- The loop of `ParseRadiusPacket` over the AVPs, from `cursor`, with the
pairs collected so far.  At the slice, `cursor` has been incremented twice:
`read` is `avpLength + (cursor + 2) - 2`, and the cursor moves on to
`cursor + 2 + avpLength - 2`. -/
def parseAVPs (md5 : List Nat → List Nat) (m : Maps) (p : RadiusPacket) (data : Slice) :
    Nat → Nat → List AttributeValuePair → Run (List AttributeValuePair)
  | 0, cursor, pairs => if cursor < data.len then Run.fuel else Run.ok pairs
  | fuel + 1, cursor, pairs =>
    if cursor < data.len then
      match data.index cursor, data.index (cursor + 1) with
      | some avpType, some avpLength =>
        match data.slice (cursor + 2) (avpLength + (cursor + 2) - 2) with
        | some avpContent =>
          match parseContent md5 m p avpType avpContent with
          | Run.ok (name, ctype, parsedContent) =>
            parseAVPs md5 m p data fuel (cursor + 2 + avpLength - 2)
              (pairs ++ [⟨name, ctype, avpLength, parsedContent⟩])
          | Run.panic => Run.panic
          | Run.fuel => Run.fuel
        | none => Run.panic
      | _, _ => Run.panic
    else Run.ok pairs

/-- RADIUS Packet Parser. -/
def ParseRadiusPacket (md5 : List Nat → List Nat) (m : Maps) (r : GoRadius)
    (source : Option UDPAddr) (data : Slice) : Run Parsed :=
  match data.index 0, data.index 1, data.index 2, data.index 3 with
  | some code, some packetId, some d2, some d3 =>
    let pl := (d2 <<< 8) % 2 ^ 16 ||| d3
    match data.slice 4 20, source, r.SharedSecret with
    | some authenticator, some src, some sharedSecret =>
      let p : RadiusPacket :=
        { Originator := source
          SharedSecret := sharedSecret src.IP
          Code := code
          PacketType := (packetCodes code).getD "Unknown"
          PacketId := packetId
          Authenticator := some authenticator.elems
          AVPS := []
          Raw := data }
      match parseAVPs md5 m p data data.len 20 [] with
      | Run.ok pairs => Run.ok ⟨{ p with AVPS := pairs }, decide (pl ≠ data.len)⟩
      | Run.panic => Run.panic
      | Run.fuel => Run.fuel
    | _, _, _ => Run.panic
  | _, _, _, _ => Run.panic

/-! ## Vocabulary of the statements -/

/-- Sum of the `Length` fields of a list of AVPs. -/
def sumLengths (pairs : List AttributeValuePair) : Nat := (pairs.map (·.Length)).sum

/-- The wire form `[t, 2 + len v, v]` of a well-framed AVP of type `t` and value `v`. -/
def encodeFrame (f : Nat × List Nat) : List Nat := f.1 :: (2 + f.2.length) :: f.2

/-- The AVP record the fallback path produces for a frame. -/
def fallbackPair (f : Nat × List Nat) : AttributeValuePair :=
  ⟨"unknown", "fallback", 2 + f.2.length, Value.bytes f.2⟩

/-- The packet as `ParseRadiusPacket` has built it when the AVP loop starts. -/
def headerPacket (sharedSecret : SharedSecretProvider) (src : UDPAddr) (data : Slice) :
    RadiusPacket :=
  { Originator := some src
    SharedSecret := sharedSecret src.IP
    Code := data.elems.getD 0 0
    PacketType := (packetCodes (data.elems.getD 0 0)).getD "Unknown"
    PacketId := data.elems.getD 1 0
    Authenticator := some ((data.elems.drop 4).take 16)
    AVPS := []
    Raw := data }

/-- The big-endian uint16 at bytes 2 and 3 of the datagram. -/
def lengthField (data : Slice) : Nat :=
  (data.elems.getD 2 0 <<< 8) % 2 ^ 16 ||| data.elems.getD 3 0

/-- Bytewise XOR of two byte strings. -/
def xorBytes (a b : List Nat) : List Nat := List.zipWith (· ^^^ ·) a b

/-- The decoded chunks `p_i = c_i XOR md5 (secret ++ previous_block)` of a
password of `n` chunks, `previous_block` being `previous` for the first chunk
and the chunk before afterwards. -/
def plainChunks (md5 : List Nat → List Nat) (secret : List Nat) :
    Nat → List Nat → List Nat → List (List Nat)
  | 0, _, _ => []
  | n + 1, previous, content =>
    xorBytes (content.take 16) (md5 (secret ++ previous))
      :: plainChunks md5 secret n (content.take 16) (content.drop 16)

/-- A byte string cut at its first zero byte. -/
def cutAtZero (bytes : List Nat) : List Nat := bytes.takeWhile (· != 0)

/-- The first `n` chunks of sixteen bytes. -/
def chunks16 : Nat → List Nat → List (List Nat)
  | 0, _ => []
  | n + 1, l => l.take 16 :: chunks16 n (l.drop 16)

/-- RFC 2865 section 5.2: the plaintext padded with zeros to a multiple of 16. -/
def zeroPad (plaintext : List Nat) : List Nat :=
  plaintext ++ List.replicate ((16 - plaintext.length % 16) % 16) 0

/-- RFC 2865 section 5.2: `c_i = p_i XOR md5 (secret ++ c_(i-1))` over `n`
chunks, `previous` being `c_(i-1)`. -/
def obfuscateLoop (md5 : List Nat → List Nat) (secret : List Nat) :
    Nat → List Nat → List Nat → List Nat
  | 0, _, _ => []
  | n + 1, previous, padded =>
    xorBytes (padded.take 16) (md5 (secret ++ previous))
      ++ obfuscateLoop md5 secret n (xorBytes (padded.take 16) (md5 (secret ++ previous)))
          (padded.drop 16)

/-- RFC 2865 section 5.2: the obfuscation of a User-Password, `c_0` being the
request authenticator. -/
def obfuscate (md5 : List Nat → List Nat) (secret authenticator plaintext : List Nat) :
    List Nat :=
  obfuscateLoop md5 secret ((zeroPad plaintext).length / 16) authenticator (zeroPad plaintext)

/-- The big-endian unsigned value of a byte string. -/
def bigEndian (bytes : List Nat) : Nat := bytes.foldl (fun x b => x * 256 + b) 0

/-- The name that goes with an accounting status value. -/
def acctStatusName (n : Nat) : String :=
  if n = 1 then "Start"
  else if n = 2 then "Stop"
  else if n = 3 then "Interim-Update"
  else if n = 4 then "Accounting-On"
  else if n = 5 then "Accounting-Off"
  else "Unknown"

/-- The bytes the registered encoders produce for a list of AVPs, in order;
an AVP whose name has no encoder contributes nothing. -/
def encodedAVPs (marshalMap : String → Option MarshalHelper) (p : RadiusPacket)
    (avps : List AttributeValuePair) : List Nat :=
  avps.flatMap fun avp =>
    match marshalMap avp.Name with
    | some m => (m avp p).getD []
    | none => []

/-! ## Sample data for the instances below -/

/-- An encoder for text attributes: a type byte, the total length, the bytes. -/
def sampleMarshaller : MarshalHelper := fun avp _ =>
  match avp.Content with
  | Value.str s => some ([1, (s.length + 2) % 256] ++ s)
  | _ => none

/-- A small attribute dictionary. -/
def sampleRadiusData : List RadiusDictionary :=
  [⟨1, "User-Name", "string"⟩, ⟨2, "User-Password", "userpassword"⟩,
   ⟨4, "NAS-IP-Address", "IP"⟩, ⟨5, "NAS-Port", "uint32"⟩,
   ⟨26, "Vendor-Specific", "VSA"⟩, ⟨40, "Acct-Status-Type", "Acct-Status-Type"⟩]

/-- A small vendor dictionary. -/
def sampleVendorData : List VendorDictionary :=
  [⟨9, "Cisco", [⟨1, "Cisco-AVPair", "string"⟩], fun _ => none⟩]

/-- The maps `NewGoRadius` builds from the sample dictionaries. -/
def sampleMaps : Maps := NewGoRadius sampleRadiusData sampleVendorData sampleMarshaller

/-- A server whose resolver answers `testing123` for every client. -/
def sampleServer : GoRadius := ⟨some fun _ => bytesOf "testing123"⟩

/-- A client address. -/
def sampleSource : UDPAddr := ⟨"192.0.2.1", 1812⟩

/-- An Access-Accept carrying one text attribute, answering a request whose
authenticator was sixteen bytes of 7. -/
def sampleResponse : RadiusPacket :=
  { Originator := some sampleSource
    SharedSecret := bytesOf "testing123"
    Code := 2
    PacketType := ""
    PacketId := 42
    Authenticator := some (List.replicate 16 7)
    AVPS := [⟨"string", "string", 6, Value.str [117, 115, 101, 114]⟩]
    Raw := ⟨[], []⟩ }

/-- A received packet of 26 bytes: header, authenticator, one attribute. -/
def sampleReceived : RadiusPacket :=
  { Originator := some sampleSource
    SharedSecret := bytesOf "testing123"
    Code := 4
    PacketType := "Accounting-Request"
    PacketId := 9
    Authenticator := some (List.replicate 16 0)
    AVPS := []
    Raw := ⟨[4, 9, 0, 26] ++ List.replicate 16 0 ++ [1, 6, 117, 115, 101, 114], []⟩ }

/-- A 26-byte Access-Request with a User-Name, in a slice of exactly its size. -/
def sampleDatagram : Slice :=
  ⟨[1, 127, 0, 26] ++ List.replicate 16 0 ++ [1, 6, 117, 115, 101, 114], []⟩

/-- What `ParseRadiusPacket` returns on `sampleDatagram`. -/
def sampleParsed : Parsed :=
  ⟨{ Originator := some sampleSource
     SharedSecret := bytesOf "testing123"
     Code := 1
     PacketType := "Access-Request"
     PacketId := 127
     Authenticator := some (List.replicate 16 0)
     AVPS := [⟨"User-Name", "string", 6, Value.str [117, 115, 101, 114]⟩]
     Raw := sampleDatagram }, false⟩

/-- A 22-byte datagram read into a 32-byte buffer `b` and handed over as
`b[0:22]`, the way `StartUDPServer` does with its 1500-byte buffer: its only
AVP declares 10 bytes, 2 of which arrived. -/
def overrunDatagram : Slice :=
  ⟨[1, 127, 0, 22] ++ List.replicate 16 0 ++ [250, 10], List.replicate 10 0⟩

/-- A 27-byte datagram handed over as `b[0:27]` of a 32-byte buffer: a
well-framed AVP, then one that declares 6 bytes with 3 remaining. -/
def truncatedDatagram : Slice :=
  ⟨[1, 127, 0, 27] ++ List.replicate 16 0 ++ [250, 4, 1, 2] ++ [251, 6, 9],
   List.replicate 5 0⟩

/-- A 40-byte datagram whose length field says 50, carrying one AVP of 20 bytes. -/
def mismatchDatagram : Slice :=
  ⟨[1, 127, 0, 50] ++ List.replicate 16 0 ++ [250, 20] ++ List.replicate 18 7, []⟩

/-- A 21-byte datagram: a header and a single trailing byte. -/
def shortDatagram (spare : List Nat) : Slice :=
  ⟨[1, 0, 0, 21] ++ List.replicate 16 0 ++ [1], spare⟩

/-- A 23-byte datagram whose NAS-Port AVP (content type `uint32`) has one
content byte. -/
def shortUint32Datagram : Slice :=
  ⟨[1, 0, 0, 23] ++ List.replicate 16 0 ++ [5, 3, 1], []⟩

/-- A 26-byte datagram whose Vendor-Specific AVP has four content bytes. -/
def shortVendorDatagram : Slice :=
  ⟨[1, 0, 0, 26] ++ List.replicate 16 0 ++ [26, 6, 0, 0, 0, 9], []⟩

/-- A request as the password parser sees it: the secret `testing123` and an
authenticator of sixteen zero bytes. -/
def passwordPacket : RadiusPacket :=
  { RadiusPacket.new with
    SharedSecret := bytesOf "testing123", Authenticator := some (List.replicate 16 0) }

/-- A User-Password value of two chunks: under `passwordPacket` its chunks
decode to `ab` and `cd`, each followed by fourteen zero bytes. -/
def twoChunkPassword : List Nat :=
  [220, 117, 110, 157, 166, 85, 82, 85, 171, 118, 212, 234, 106, 189, 239, 215,
   190, 36, 30, 102, 44, 5, 86, 67, 89, 141, 2, 105, 247, 203, 89, 234]

/-- A fresh request: Code 1, PacketId 7, no authenticator yet, one AVP with
an encoder and one without. -/
def sampleRequest : RadiusPacket :=
  { RadiusPacket.new with
    Code := 1, PacketId := 7, SharedSecret := bytesOf "testing123",
    AVPS := [⟨"string", "string", 6, Value.str [117, 115, 101, 114]⟩,
             ⟨"NAS-Port", "uint32", 6, Value.uint32 1⟩] }

/-- A permutation of 0..15, as `rand.Perm(16)` returns one. -/
def samplePerm : List Nat := [3, 1, 4, 15, 9, 2, 6, 5, 0, 8, 7, 10, 11, 12, 13, 14]

/-- An Accounting-Response to a request whose authenticator was sixteen zero
bytes. -/
def sampleZeroResponse : RadiusPacket :=
  { sampleResponse with Code := 5, Authenticator := some (List.replicate 16 0) }

/-! ## Theorems -/

/-- The digest of RFC 1321 is sixteen bytes long. -/
theorem MD5.sum_length (msg : List Nat) : (MD5.sum msg).length = 16 := by
  simp [MD5.sum, MD5.wordBytes]

/-! ### `VerifyAuthenticator` and `Marshal` -/

/-- The comparison loop returns whether the `n` bytes of `raw` from `4 + i`
are the last `n` bytes of `ours`. -/
theorem verifyLoop_eq (raw : Slice) (ours : List Nat) :
    ∀ (n i : Nat), 4 + i + n ≤ raw.len → i + n = ours.length →
      verifyLoop raw ours n i
        = some (decide ((raw.elems.drop (4 + i)).take n = ours.drop i)) := by
  intro n
  induction n with
  | zero =>
    intro i _ h2
    have : ours.drop i = [] := List.drop_eq_nil_of_le (by omega)
    simp [verifyLoop, this]
  | succ n ih =>
    intro i h1 h2
    have hr : 4 + i < raw.elems.length := by simp only [Slice.len] at h1; omega
    have ho : i < ours.length := by omega
    have e1 : raw.elems.drop (4 + i) = raw.elems[4 + i] :: raw.elems.drop (4 + i + 1) :=
      List.drop_eq_getElem_cons hr
    have e2 : ours.drop i = ours[i] :: ours.drop (i + 1) := List.drop_eq_getElem_cons ho
    have ih' := ih (i + 1) (by omega) (by omega)
    have e3 : 4 + (i + 1) = 4 + i + 1 := by omega
    rw [e3] at ih'
    simp only [verifyLoop, Slice.index, List.getElem?_eq_getElem hr, List.getElem?_eq_getElem ho,
      e1, e2, List.take_succ_cons, List.cons.injEq, ih']
    by_cases hne : raw.elems[4 + i] = ours[i]
    · simp [hne]
    · simp [hne]

/-- On a packet of at least 20 raw bytes `VerifyAuthenticator` returns the
outcome of comparing `Raw[4:20]` with the recomputed digest. -/
theorem VerifyAuthenticator_eq (md5 : List Nat → List Nat) (hmd5 : ∀ m, (md5 m).length = 16)
    (p : RadiusPacket) (hlen : 20 ≤ p.Raw.len) :
    VerifyAuthenticator md5 p = some (decide ((p.Raw.elems.drop 4).take 16
      = md5 (p.Raw.elems.take 4 ++ List.replicate 16 0 ++ p.Raw.elems.drop 20
          ++ p.SharedSecret))) := by
  have h20 : 20 ≤ p.Raw.elems.length := hlen
  have h4 : 4 ≤ p.Raw.elems.length := by omega
  have hs : p.Raw.slice 0 4 = some ⟨p.Raw.elems.take 4, (p.Raw.elems ++ p.Raw.spare).drop 4⟩ := by
    have : 4 ≤ p.Raw.cap := by simp only [Slice.cap]; omega
    simp [Slice.slice, this, List.take_append_of_le_length h4]
  have hf : p.Raw.sliceFrom 20 = some ⟨p.Raw.elems.drop 20, p.Raw.spare⟩ := by
    simp [Slice.sliceFrom, hlen]
  simp only [VerifyAuthenticator, hs, hf]
  rw [verifyLoop_eq p.Raw _ 16 0 (by omega) (by simp [hmd5])]
  simp

/-- C1: for a packet whose Authenticator is set to `A` and whose encoders
produce `V`, `Marshal` returns `H ++ D ++ V` with
`H = [byte(Code), byte(PacketId), hi, lo]`, `(hi, lo)` the big-endian uint16 of
`20 + len V`, and `D = md5 (H ++ A ++ V ++ SharedSecret)`, and leaves `D` in the
packet's Authenticator; and for Code 2, PacketId 42, no AVPs and secret
`testing123` the bytes are `02 2a 00 14` followed by
`md5 (02 2a 00 14 ++ A ++ "testing123")`. -/
theorem Marshal_response (md5 : List Nat → List Nat)
    (marshalMap : String → Option MarshalHelper) (randInts : List Nat)
    (p : RadiusPacket) (A V : List Nat)
    (hA : p.Authenticator = some A)
    (hV : marshalAVPs marshalMap p p.AVPS [] = some V) :
    Marshal md5 marshalMap randInts p
        = some ([p.Code % 256, p.PacketId % 256,
                  (20 + V.length) % 65536 / 256, (20 + V.length) % 65536 % 256]
                ++ md5 ([p.Code % 256, p.PacketId % 256,
                  (20 + V.length) % 65536 / 256, (20 + V.length) % 65536 % 256]
                  ++ A ++ V ++ p.SharedSecret) ++ V,
                { p with Authenticator := some (md5 ([p.Code % 256, p.PacketId % 256,
                  (20 + V.length) % 65536 / 256, (20 + V.length) % 65536 % 256]
                  ++ A ++ V ++ p.SharedSecret)) })
      ∧ ∀ (origin : Option UDPAddr) (reqAuth : List Nat),
          (Marshal md5 marshalMap randInts
              { RadiusPacket.new with
                Code := 2, PacketId := 42, Authenticator := some reqAuth,
                SharedSecret := bytesOf "testing123", Originator := origin }).map Prod.fst
            = some ([0x02, 0x2a, 0x00, 0x14]
                ++ md5 ([0x02, 0x2a, 0x00, 0x14] ++ reqAuth ++ bytesOf "testing123")) := by
  constructor
  · have e : (4 + 16 + V.length % 65536) % 65536 = (20 + V.length) % 65536 := by omega
    simp [Marshal, hA, hV, e]
  · intro origin reqAuth
    simp [Marshal, marshalAVPs, RadiusPacket.new]

/-- C1, at the sample Access-Accept with one encoded attribute. -/
theorem Marshal_response_witness :
    sampleResponse.Authenticator = some (List.replicate 16 7)
      ∧ marshalAVPs sampleMaps.marshalMap sampleResponse sampleResponse.AVPS []
          = some [1, 6, 117, 115, 101, 114]
      ∧ (Marshal MD5.sum sampleMaps.marshalMap [] sampleResponse).map Prod.fst
          = some ([2, 42, 0, 26]
              ++ MD5.sum ([2, 42, 0, 26] ++ List.replicate 16 7 ++ [1, 6, 117, 115, 101, 114]
                  ++ bytesOf "testing123")
              ++ [1, 6, 117, 115, 101, 114]) :=
  ⟨rfl, by decide,
    by rw [(Marshal_response MD5.sum sampleMaps.marshalMap [] sampleResponse
        (List.replicate 16 7) [1, 6, 117, 115, 101, 114] rfl (by decide)).1]; rfl⟩

/-- C2: on a packet with at least 20 raw bytes `VerifyAuthenticator` returns a
boolean, and that boolean is true if and only if `Raw[4:20]` equals
`md5 (Raw[0:4] ++ sixteen zero bytes ++ Raw[20:] ++ SharedSecret)`; so a datagram
whose authenticator field was built as that digest verifies. -/
theorem VerifyAuthenticator_iff (md5 : List Nat → List Nat)
    (hmd5 : ∀ m, (md5 m).length = 16) (p : RadiusPacket) (hlen : 20 ≤ p.Raw.len) :
    (∃ b, VerifyAuthenticator md5 p = some b)
      ∧ (VerifyAuthenticator md5 p = some true ↔
          (p.Raw.elems.drop 4).take 16
            = md5 (p.Raw.elems.take 4 ++ List.replicate 16 0 ++ p.Raw.elems.drop 20
                ++ p.SharedSecret))
      ∧ ∀ (head attrs spare : List Nat), head.length = 4 →
          VerifyAuthenticator md5
            { p with Raw := ⟨head ++ md5 (head ++ List.replicate 16 0 ++ attrs ++ p.SharedSecret)
                              ++ attrs, spare⟩ } = some true := by
  refine ⟨⟨_, VerifyAuthenticator_eq md5 hmd5 p hlen⟩, ?_, ?_⟩
  · rw [VerifyAuthenticator_eq md5 hmd5 p hlen]
    simp
  · intro head attrs spare hhead
    rw [VerifyAuthenticator_eq md5 hmd5 _ (by simp [Slice.len, hmd5, hhead]; omega)]
    have h20 : (head ++ md5 (head ++ List.replicate 16 0 ++ attrs ++ p.SharedSecret)).length
        = 20 := by simp [hmd5, hhead]
    simp only [List.append_assoc] at h20 ⊢
    have e1 : List.take 4 (head ++ (md5 (head ++ (List.replicate 16 0 ++ (attrs ++ p.SharedSecret)))
        ++ attrs)) = head := List.take_left' hhead
    have e2 : List.drop 4 (head ++ (md5 (head ++ (List.replicate 16 0 ++ (attrs ++ p.SharedSecret)))
        ++ attrs)) = md5 (head ++ (List.replicate 16 0 ++ (attrs ++ p.SharedSecret)))
        ++ attrs := List.drop_left' hhead
    have e3 : List.drop 20 (head ++ (md5 (head ++ (List.replicate 16 0 ++ (attrs ++ p.SharedSecret)))
        ++ attrs)) = attrs := by
      rw [← List.append_assoc]
      exact List.drop_left' (by simpa using h20)
    rw [e1, e2, e3, List.take_left' (hmd5 _)]
    simp

/-- C2, at the sample received packet and the digest of RFC 1321. -/
theorem VerifyAuthenticator_iff_witness :
    20 ≤ sampleReceived.Raw.len
      ∧ (VerifyAuthenticator MD5.sum sampleReceived = some true ↔
          (sampleReceived.Raw.elems.drop 4).take 16
            = MD5.sum (sampleReceived.Raw.elems.take 4 ++ List.replicate 16 0
                ++ sampleReceived.Raw.elems.drop 20 ++ sampleReceived.SharedSecret)) :=
  ⟨by decide, (VerifyAuthenticator_iff MD5.sum MD5.sum_length sampleReceived (by decide)).2.1⟩

/-! ### `ParseRadiusPacket`: termination and framing -/

/-- A straight-line result is never the model running out of steps. -/
theorem Run.ofOption_ne_fuel {α : Type} (o : Option α) : Run.ofOption o ≠ Run.fuel := by
  cases o <;> simp [Run.ofOption]

/-- `VendorParser` runs out of steps only if the call of the sub-attribute's
parser does. -/
theorem VendorParser_ne_fuel (vendorMap : Int → Option VendorDictionary)
    (parserMap : String → Option ContentParser)
    (call : ContentParser → List Nat → RadiusPacket → Run Value)
    (avpContent : List Nat) (rp : RadiusPacket)
    (hcall : 6 ≤ avpContent.length → ∀ parser, call parser (avpContent.drop 6) rp ≠ Run.fuel) :
    VendorParser vendorMap parserMap call avpContent rp ≠ Run.fuel := by
  unfold VendorParser
  split
  · next a3 a2 a1 a0 vt vl h3 _ _ _ _ h5 =>
    have hlen : 6 ≤ avpContent.length := by
      by_contra hc
      rw [List.getElem?_eq_none (by omega)] at h5
      cases h5
    dsimp only
    split
    · split
      · split
        · next parser _ =>
          have := hcall hlen parser
          split <;> simp_all
        · simp
      · simp
    · simp
  · simp

/-- A parser call with more fuel than content bytes never runs out of steps:
every nested `VendorParser` call drops six bytes. -/
theorem runParser_ne_fuel (md5 : List Nat → List Nat) (vendorMap : Int → Option VendorDictionary)
    (parserMap : String → Option ContentParser) :
    ∀ (fuel : Nat) (parser : ContentParser) (content : List Nat) (r : RadiusPacket),
      content.length < fuel → runParser md5 vendorMap parserMap fuel parser content r ≠ Run.fuel := by
  intro fuel
  induction fuel with
  | zero => intro _ _ _ h; omega
  | succ fuel ih =>
    intro parser content r h
    cases parser <;> simp only [runParser] <;> try exact Run.ofOption_ne_fuel _
    exact VendorParser_ne_fuel _ _ _ _ _ fun hlen parser =>
      ih parser _ r (by simp only [List.length_drop]; omega)

/-- The body of the AVP loop never runs out of steps. -/
theorem parseContent_ne_fuel (md5 : List Nat → List Nat) (m : Maps) (p : RadiusPacket)
    (avpType : Nat) (avpContent : Slice) :
    parseContent md5 m p avpType avpContent ≠ Run.fuel := by
  have key : ∀ parser, runParser md5 m.vendorMap m.parserMap (avpContent.len + 1) parser
      avpContent.elems p ≠ Run.fuel := fun parser =>
    runParser_ne_fuel md5 _ _ _ parser _ p (by simp [Slice.len])
  unfold parseContent
  split
  · split
    · next parser _ => have := key parser; split <;> simp_all
    · simp
  · split
    · next parser _ => have := key parser; split <;> simp_all
    · simp

/-- The AVP loop never runs out of steps when the fuel covers the bytes left:
every iteration that goes on moves the cursor forward by at least 2. -/
theorem parseAVPs_ne_fuel (md5 : List Nat → List Nat) (m : Maps) (p : RadiusPacket)
    (data : Slice) :
    ∀ (fuel cursor : Nat) (pairs : List AttributeValuePair), data.len ≤ cursor + fuel →
      parseAVPs md5 m p data fuel cursor pairs ≠ Run.fuel := by
  intro fuel
  induction fuel with
  | zero =>
    intro cursor pairs h
    have : ¬ cursor < data.len := by omega
    simp [parseAVPs, this]
  | succ fuel ih =>
    intro cursor pairs h
    unfold parseAVPs
    split
    · split
      · next avpType avpLength _ _ =>
        split
        · next avpContent hs =>
          have hL : cursor + 2 ≤ avpLength + (cursor + 2) - 2 := by
            simp only [Slice.slice] at hs
            split at hs
            · next hc => exact hc.1
            · cases hs
          have := parseContent_ne_fuel md5 m p avpType avpContent
          split
          · exact ih _ _ (by omega)
          · simp
          · simp_all
        · simp
      · simp
    · simp

/-- `ParseRadiusPacket` is total: it returns or panics. -/
theorem ParseRadiusPacket_ne_fuel (md5 : List Nat → List Nat) (m : Maps) (r : GoRadius)
    (source : Option UDPAddr) (data : Slice) :
    ParseRadiusPacket md5 m r source data ≠ Run.fuel := by
  unfold ParseRadiusPacket
  split
  · dsimp only
    split
    · next authenticator src sharedSecret _ _ _ =>
      split
      · simp
      · simp
      · next h => exact absurd h (parseAVPs_ne_fuel md5 m _ data _ _ _ (by omega))
    · simp
  · simp

/-- A slice expression that is in range: its bounds and its visible bytes. -/
theorem Slice.slice_some {s : Slice} {lo hi : Nat} {t : Slice} (h : s.slice lo hi = some t) :
    lo ≤ hi ∧ hi ≤ s.cap ∧ t.elems = ((s.elems ++ s.spare).drop lo).take (hi - lo) := by
  simp only [Slice.slice] at h
  split at h
  · next hc =>
    cases h
    exact ⟨hc.1, hc.2, rfl⟩
  · cases h

/-- The type and length bytes of an AVP that starts right after `pre`. -/
theorem Slice.frame_at (data : Slice) (pre tail : List Nat) (t L : Nat)
    (h : data.elems = pre ++ t :: L :: tail) :
    pre.length < data.len ∧ data.index pre.length = some t
      ∧ data.index (pre.length + 1) = some L := by
  refine ⟨?_, ?_, ?_⟩
  · simp [Slice.len, h]
  · rw [Slice.index, h, List.getElem?_append_right (le_refl _)]
    simp
  · rw [Slice.index, h, List.getElem?_append_right (by omega)]
    simp

/-- The content slice of a well-framed AVP that starts right after `pre`. -/
theorem Slice.slice_at (data : Slice) (pre v rest : List Nat) (t L : Nat)
    (h : data.elems = pre ++ t :: L :: (v ++ rest)) :
    data.slice (pre.length + 2) (2 + v.length + (pre.length + 2) - 2)
      = some ⟨v, rest ++ data.spare⟩ := by
  have e : data.elems ++ data.spare = (pre ++ [t, L]) ++ (v ++ (rest ++ data.spare)) := by
    simp [h]
  have hl : (pre ++ [t, L]).length = pre.length + 2 := by simp
  have hcap : 2 + v.length + (pre.length + 2) - 2 ≤ data.cap := by
    simp only [Slice.cap, h, List.length_append, List.length_cons]
    omega
  have hlo : pre.length + 2 ≤ 2 + v.length + (pre.length + 2) - 2 := by omega
  have hd : 2 + v.length + (pre.length + 2) - 2 - (pre.length + 2) = v.length := by omega
  have hd2 : 2 + v.length + (pre.length + 2) - 2 = (pre ++ [t, L] ++ v).length := by
    simp; omega
  simp only [Slice.slice, hlo, hcap, and_self, if_true, hd]
  rw [hd2, e, ← hl, List.drop_left, List.take_left, ← List.append_assoc, List.drop_left]

/-- The loop body on an AVP whose type misses the dictionary. -/
theorem parseContent_unknown (md5 : List Nat → List Nat) (m : Maps) (p : RadiusPacket)
    (avpType : Nat) (avpContent : Slice)
    (hfallback : m.parserMap "fallback" = some ContentParser.FallbackParser)
    (hunknown : m.radiusMap (Int.ofNat avpType) = none) :
    parseContent md5 m p avpType avpContent
      = Run.ok ("unknown", "fallback", Value.bytes avpContent.elems) := by
  unfold parseContent
  rw [hunknown]
  simp [hfallback, runParser, FallbackParser, Run.ofOption]

/-- The AVP loop over well-framed AVPs of unknown type, from the end of `pre`. -/
theorem parseAVPs_unknown (md5 : List Nat → List Nat) (m : Maps) (p : RadiusPacket)
    (hfallback : m.parserMap "fallback" = some ContentParser.FallbackParser) :
    ∀ (frames : List (Nat × List Nat)) (data : Slice) (pre : List Nat) (fuel : Nat)
      (pairs : List AttributeValuePair),
      data.elems = pre ++ frames.flatMap encodeFrame →
      (∀ f ∈ frames, m.radiusMap (Int.ofNat f.1) = none) → frames.length ≤ fuel →
      parseAVPs md5 m p data fuel pre.length pairs
        = Run.ok (pairs ++ frames.map fallbackPair) := by
  intro frames
  induction frames with
  | nil =>
    intro data pre fuel pairs hd _ _
    have : ¬ pre.length < data.len := by simp [Slice.len, hd]
    cases fuel <;> simp [parseAVPs, this]
  | cons f fs ih =>
    intro data pre fuel pairs hd hun hfuel
    obtain ⟨t, v⟩ := f
    cases fuel with
    | zero => simp at hfuel
    | succ fuel =>
      have hd' : data.elems = pre ++ t :: (2 + v.length) :: (v ++ fs.flatMap encodeFrame) := by
        simp [hd, encodeFrame]
      obtain ⟨h1, h2, h3⟩ := Slice.frame_at data pre _ t _ hd'
      have h4 := Slice.slice_at data pre v _ t _ hd'
      have h5 := parseContent_unknown md5 m p t ⟨v, fs.flatMap encodeFrame ++ data.spare⟩
        hfallback (hun (t, v) (by simp))
      have hd'' : data.elems = (pre ++ encodeFrame (t, v)) ++ fs.flatMap encodeFrame := by
        simp [hd, encodeFrame]
      have h6 := ih data (pre ++ encodeFrame (t, v)) fuel
        (pairs ++ [⟨"unknown", "fallback", 2 + v.length, Value.bytes v⟩]) hd''
        (fun f hf => hun f (by simp [hf])) (by simpa using hfuel)
      have e : pre.length + 2 + (2 + v.length) - 2 = (pre ++ encodeFrame (t, v)).length := by
        simp [encodeFrame]; omega
      unfold parseAVPs
      simp only [h1, if_true, h2, h3, h4, h5, e, h6]
      simp [fallbackPair]


/-- When the AVP loop returns on well-framed AVPs, from the end of `pre`, the
lengths it added to `pairs` sum to the bytes of those AVPs, whatever their
types and whatever lies behind the datagram. -/
theorem parseAVPs_framed (md5 : List Nat → List Nat) (m : Maps) (p : RadiusPacket) :
    ∀ (frames : List (Nat × List Nat)) (data : Slice) (pre : List Nat) (fuel : Nat)
      (pairs res : List AttributeValuePair),
      data.elems = pre ++ frames.flatMap encodeFrame →
      parseAVPs md5 m p data fuel pre.length pairs = Run.ok res →
      sumLengths res = sumLengths pairs + (frames.flatMap encodeFrame).length := by
  intro frames
  induction frames with
  | nil =>
    intro data pre fuel pairs res hd h
    have hlt : ¬ pre.length < data.len := by simp [Slice.len, hd]
    cases fuel with
    | zero =>
      simp only [parseAVPs, hlt, if_false, Run.ok.injEq] at h
      simp [h]
    | succ fuel =>
      unfold parseAVPs at h
      simp only [hlt, if_false, Run.ok.injEq] at h
      simp [h]
  | cons f fs ih =>
    intro data pre fuel pairs res hd h
    obtain ⟨t, v⟩ := f
    have hd' : data.elems = pre ++ t :: (2 + v.length) :: (v ++ fs.flatMap encodeFrame) := by
      simp [hd, encodeFrame]
    obtain ⟨h1, h2, h3⟩ := Slice.frame_at data pre _ t _ hd'
    cases fuel with
    | zero => simp [parseAVPs, h1] at h
    | succ fuel =>
      have h4 := Slice.slice_at data pre v _ t _ hd'
      have hd'' : data.elems = (pre ++ encodeFrame (t, v)) ++ fs.flatMap encodeFrame := by
        simp [hd, encodeFrame]
      have e : pre.length + 2 + (2 + v.length) - 2 = (pre ++ encodeFrame (t, v)).length := by
        simp [encodeFrame]; omega
      unfold parseAVPs at h
      simp only [h1, if_true, h2, h3, h4, e] at h
      split at h
      · next name ctype parsedContent _ =>
        have := ih data _ fuel _ res hd'' h
        rw [this]
        simp only [sumLengths, List.map_append, List.sum_append, List.map_cons, List.map_nil,
          List.sum_cons, List.sum_nil, List.flatMap_cons, List.length_append, encodeFrame,
          List.length_cons]
        omega
      · cases h
      · cases h

/-- `ParseRadiusPacket` on a datagram of at least 20 bytes: the header packet,
then the AVP loop. -/
theorem ParseRadiusPacket_of_len (md5 : List Nat → List Nat) (m : Maps)
    (sharedSecret : SharedSecretProvider) (src : UDPAddr) (data : Slice)
    (hlen : 20 ≤ data.len) :
    ParseRadiusPacket md5 m ⟨some sharedSecret⟩ (some src) data
      = match parseAVPs md5 m (headerPacket sharedSecret src data) data data.len 20 [] with
        | Run.ok pairs =>
          Run.ok ⟨{ headerPacket sharedSecret src data with AVPS := pairs },
            decide (lengthField data ≠ data.len)⟩
        | Run.panic => Run.panic
        | Run.fuel => Run.fuel := by
  have hl : 20 ≤ data.elems.length := hlen
  have i0 : data.index 0 = some (data.elems.getD 0 0) := by
    simp [Slice.index, List.getD, List.getElem?_eq_getElem (show 0 < data.elems.length by omega)]
  have i1 : data.index 1 = some (data.elems.getD 1 0) := by
    simp [Slice.index, List.getD, List.getElem?_eq_getElem (show 1 < data.elems.length by omega)]
  have i2 : data.index 2 = some (data.elems.getD 2 0) := by
    simp [Slice.index, List.getD, List.getElem?_eq_getElem (show 2 < data.elems.length by omega)]
  have i3 : data.index 3 = some (data.elems.getD 3 0) := by
    simp [Slice.index, List.getD, List.getElem?_eq_getElem (show 3 < data.elems.length by omega)]
  have hs : data.slice 4 20
      = some ⟨(data.elems.drop 4).take 16, (data.elems ++ data.spare).drop 20⟩ := by
    have hc : 20 ≤ data.cap := by simp only [Slice.cap]; omega
    have : List.take 16 (List.drop 4 (data.elems ++ data.spare))
        = List.take 16 (List.drop 4 data.elems) := by
      rw [List.drop_append_of_le_length (by omega),
        List.take_append_of_le_length (by simp only [List.length_drop]; omega)]
    simp [Slice.slice, hc, this]
  simp only [ParseRadiusPacket, i0, i1, i2, i3, hs, headerPacket, lengthField]

/-- What a returned packet tells: resolver and source were present, the
capacity is at least 20, and the AVP loop returned the packet's AVPs. -/
theorem ParseRadiusPacket_ok_inv (md5 : List Nat → List Nat) (m : Maps) (r : GoRadius)
    (source : Option UDPAddr) (data : Slice) (res : Parsed)
    (h : ParseRadiusPacket md5 m r source data = Run.ok res) :
    ∃ (sharedSecret : SharedSecretProvider) (src : UDPAddr) (p : RadiusPacket),
      r.SharedSecret = some sharedSecret ∧ source = some src ∧ 20 ≤ data.cap
        ∧ parseAVPs md5 m p data data.len 20 [] = Run.ok res.packet.AVPS
        ∧ res.packet.Raw = data := by
  unfold ParseRadiusPacket at h
  split at h
  · dsimp only at h
    split at h
    · next _ _ authenticator src sharedSecret hs hssp =>
      have hcap : 20 ≤ data.cap := by
        simp only [Slice.slice] at hs
        split at hs
        · next hc => exact hc.2
        · cases hs
      split at h
      · next pairs hp =>
        cases h
        exact ⟨sharedSecret, src, _, hssp, rfl, hcap, hp, rfl⟩
      · cases h
      · cases h
    · cases h
  · cases h

/-! ### `ParseRadiusPacket`: the claims -/

/-- C3, the code at the failing input: `overrunDatagram` has 22 bytes and its
only AVP declares 10; `data[cursor:read]` is checked against the capacity of
the slice only, so the loop reads 8 bytes behind the datagram and
`ParseRadiusPacket` returns a packet for which 20 plus the sum of the AVP
lengths is 30, not 22. -/
theorem ParseRadiusPacket_lengths_overrun :
    ∃ res, ParseRadiusPacket MD5.sum sampleMaps sampleServer (some sampleSource) overrunDatagram
        = Run.ok res
      ∧ res.packet.Raw.len = 22 ∧ 20 + sumLengths res.packet.AVPS = 30 :=
  ⟨⟨{ headerPacket (fun _ => bytesOf "testing123") sampleSource overrunDatagram with
        AVPS := [⟨"unknown", "fallback", 10, Value.bytes (List.replicate 8 0)⟩] }, false⟩,
    by decide, by decide, by decide⟩

/-- On a datagram made of a 20-byte header and well-framed AVPs, whatever
their types and whatever lies behind the datagram in the buffer, every packet
`ParseRadiusPacket` returns has 20 plus the sum of its AVP lengths equal to
`len(p.Raw)`: the invariant breaks only where an AVP overruns the datagram. -/
theorem ParseRadiusPacket_lengths_framed (md5 : List Nat → List Nat) (m : Maps) (r : GoRadius)
    (source : Option UDPAddr) (header spare : List Nat) (frames : List (Nat × List Nat))
    (res : Parsed) (hheader : header.length = 20)
    (h : ParseRadiusPacket md5 m r source ⟨header ++ frames.flatMap encodeFrame, spare⟩
      = Run.ok res) :
    20 + sumLengths res.packet.AVPS = res.packet.Raw.len := by
  obtain ⟨_, _, p, _, _, _, hp, hraw⟩ := ParseRadiusPacket_ok_inv md5 m r source _ res h
  have := parseAVPs_framed md5 m p frames ⟨header ++ frames.flatMap encodeFrame, spare⟩ header
    _ [] res.packet.AVPS rfl (by rw [hheader]; exact hp)
  rw [hraw, this]
  simp [sumLengths, Slice.len, hheader]

/-- C4: a datagram made of a 20-byte header followed by well-framed AVPs
`[t, 2 + len v, v]` whose types are all absent from the attribute dictionary
is decoded (whatever its header says, whatever lies behind it in the buffer)
into exactly those AVPs in wire order, each
`{Name "unknown", Type "fallback", Length 2 + len v, Content v}`. -/
theorem ParseRadiusPacket_unknown (md5 : List Nat → List Nat) (m : Maps)
    (sharedSecret : SharedSecretProvider) (src : UDPAddr)
    (header spare : List Nat) (frames : List (Nat × List Nat))
    (hheader : header.length = 20)
    (hfallback : m.parserMap "fallback" = some ContentParser.FallbackParser)
    (hunknown : ∀ f ∈ frames, m.radiusMap (Int.ofNat f.1) = none) :
    ∃ res, ParseRadiusPacket md5 m ⟨some sharedSecret⟩ (some src)
          ⟨header ++ frames.flatMap encodeFrame, spare⟩ = Run.ok res
      ∧ res.packet.AVPS
          = frames.map (fun f => ⟨"unknown", "fallback", 2 + f.2.length, Value.bytes f.2⟩)
      ∧ res.packet.AVPS.length = frames.length := by
  have hlen : 20 ≤ (⟨header ++ frames.flatMap encodeFrame, spare⟩ : Slice).len := by
    simp [Slice.len, hheader]
  have hfuel : frames.length
      ≤ (⟨header ++ frames.flatMap encodeFrame, spare⟩ : Slice).len := by
    have : ∀ fs : List (Nat × List Nat), fs.length ≤ (fs.flatMap encodeFrame).length := by
      intro fs
      induction fs with
      | nil => simp
      | cons f fs ih =>
        simp only [List.flatMap_cons, List.length_append, List.length_cons, encodeFrame]
        omega
    have := this frames
    simp only [Slice.len, List.length_append]
    omega
  have hp := parseAVPs_unknown md5 m
    (headerPacket sharedSecret src ⟨header ++ frames.flatMap encodeFrame, spare⟩) hfallback
    frames ⟨header ++ frames.flatMap encodeFrame, spare⟩ header _ [] rfl hunknown hfuel
  rw [hheader] at hp
  rw [ParseRadiusPacket_of_len md5 m sharedSecret src _ hlen, hp]
  exact ⟨_, rfl, by simp [fallbackPair], by simp⟩

/-- C4, at a datagram with the two unknown AVPs `fa 05 01 02 03` and `fb 02`. -/
theorem ParseRadiusPacket_unknown_witness :
    [1, 127, 0, 27, 0, 0, 0, 0, 0, 0, 0, 0, 0, 0, 0, 0, 0, 0, 0, 0].length = 20
      ∧ sampleMaps.parserMap "fallback" = some ContentParser.FallbackParser
      ∧ (∀ f ∈ [(250, [1, 2, 3]), (251, [])], sampleMaps.radiusMap (Int.ofNat f.1) = none)
      ∧ ∃ res, ParseRadiusPacket MD5.sum sampleMaps ⟨some fun _ => bytesOf "testing123"⟩
            (some sampleSource)
            ⟨[1, 127, 0, 27, 0, 0, 0, 0, 0, 0, 0, 0, 0, 0, 0, 0, 0, 0, 0, 0]
              ++ [250, 5, 1, 2, 3, 251, 2], []⟩ = Run.ok res
          ∧ res.packet.AVPS = [⟨"unknown", "fallback", 5, Value.bytes [1, 2, 3]⟩,
              ⟨"unknown", "fallback", 2, Value.bytes []⟩] :=
  ⟨rfl, rfl, by decide,
    (ParseRadiusPacket_unknown MD5.sum sampleMaps (fun _ => bytesOf "testing123") sampleSource
      [1, 127, 0, 27, 0, 0, 0, 0, 0, 0, 0, 0, 0, 0, 0, 0, 0, 0, 0, 0] []
      [(250, [1, 2, 3]), (251, [])] rfl rfl (by decide)).imp fun _ h => ⟨h.1, h.2.1⟩⟩

/-- C5: on a datagram of at least 20 bytes, a packet returned by
`ParseRadiusPacket` has `Code = data[0]`, `PacketId = data[1]`,
`Authenticator = data[4:20]` (sixteen bytes), `SharedSecret` the resolver
applied to the source IP, and `PacketType` the name `packetCodes` gives to
`Code`, or `"Unknown"`; a header `01 7f` gives Code 1, `Access-Request`,
PacketId 127.  A datagram of exactly 20 bytes is always returned (resolver
and source present). -/
theorem ParseRadiusPacket_header (md5 : List Nat → List Nat) (m : Maps) (r : GoRadius)
    (source : Option UDPAddr) (data : Slice) (hlen : 20 ≤ data.len) :
    (∀ res, ParseRadiusPacket md5 m r source data = Run.ok res →
        data.elems[0]? = some res.packet.Code
          ∧ data.elems[1]? = some res.packet.PacketId
          ∧ res.packet.Authenticator = some ((data.elems.drop 4).take 16)
          ∧ ((data.elems.drop 4).take 16).length = 16
          ∧ (∃ sharedSecret src, r.SharedSecret = some sharedSecret ∧ source = some src
              ∧ res.packet.SharedSecret = sharedSecret src.IP)
          ∧ res.packet.PacketType = (packetCodes res.packet.Code).getD "Unknown"
          ∧ (data.elems[0]? = some 1 → data.elems[1]? = some 127 →
              res.packet.Code = 1 ∧ res.packet.PacketType = "Access-Request"
                ∧ res.packet.PacketId = 127))
      ∧ (data.len = 20 → r.SharedSecret ≠ none → source ≠ none →
          ∃ res, ParseRadiusPacket md5 m r source data = Run.ok res) := by
  have hl : 20 ≤ data.elems.length := hlen
  constructor
  · intro res h
    obtain ⟨sharedSecret, src, _, hssp, hsrc, _, _, _⟩ :=
      ParseRadiusPacket_ok_inv md5 m r source data res h
    obtain ⟨ssp⟩ := r
    simp only at hssp
    subst hssp hsrc
    rw [ParseRadiusPacket_of_len md5 m sharedSecret src data hlen] at h
    split at h
    · next pairs _ =>
      cases h
      have h0 : data.elems[0]? = some (data.elems.getD 0 0) := by
        simp [List.getD, List.getElem?_eq_getElem (show 0 < data.elems.length by omega)]
      have h1 : data.elems[1]? = some (data.elems.getD 1 0) := by
        simp [List.getD, List.getElem?_eq_getElem (show 1 < data.elems.length by omega)]
      refine ⟨h0, h1, rfl, ?_, ⟨sharedSecret, src, rfl, rfl, rfl⟩, rfl, ?_⟩
      · simp only [List.length_take, List.length_drop]
        omega
      · intro e0 e1
        rw [h0] at e0
        rw [h1] at e1
        simp only [Option.some.injEq] at e0 e1
        refine ⟨e0, ?_, e1⟩
        show (packetCodes (data.elems.getD 0 0)).getD "Unknown" = "Access-Request"
        rw [e0]
        rfl
    · cases h
    · cases h
  · intro h20 hssp hsrc
    obtain ⟨ssp⟩ := r
    cases ssp with
    | none => exact absurd rfl hssp
    | some sharedSecret =>
      cases source with
      | none => exact absurd rfl hsrc
      | some src =>
        rw [ParseRadiusPacket_of_len md5 m sharedSecret src data hlen, h20]
        have : parseAVPs md5 m (headerPacket sharedSecret src data) data 20 20 []
            = Run.ok [] := by
          unfold parseAVPs
          simp [h20]
        rw [this]
        exact ⟨_, rfl⟩

/-- C5, at the sample Access-Request, whose header starts `01 7f`. -/
theorem ParseRadiusPacket_header_witness :
    20 ≤ sampleDatagram.len
      ∧ ParseRadiusPacket MD5.sum sampleMaps sampleServer (some sampleSource) sampleDatagram
          = Run.ok sampleParsed
      ∧ sampleParsed.packet.Code = 1 ∧ sampleParsed.packet.PacketType = "Access-Request"
      ∧ sampleParsed.packet.PacketId = 127 :=
  ⟨by decide, by decide,
    ((ParseRadiusPacket_header MD5.sum sampleMaps sampleServer (some sampleSource) sampleDatagram
      (by decide)).1 sampleParsed (by decide)).2.2.2.2.2.2 rfl rfl⟩

/-- C6, the code at the failing input: `mismatchDatagram` has 40 bytes and a
length field of 50; `ParseRadiusPacket` reports the mismatch through
`l.Fatal` and goes on to return the packet with the AVP it decoded. -/
theorem ParseRadiusPacket_length_mismatch :
    lengthField mismatchDatagram = 50 ∧ mismatchDatagram.len = 40
      ∧ ParseRadiusPacket MD5.sum sampleMaps sampleServer (some sampleSource) mismatchDatagram
          = Run.ok ⟨{ headerPacket (fun _ => bytesOf "testing123") sampleSource mismatchDatagram
                      with AVPS :=
                        [⟨"unknown", "fallback", 20, Value.bytes (List.replicate 18 7)⟩] },
                    true⟩ :=
  ⟨by decide, by decide, by decide⟩

/-- C7, the code at the failing input: in `truncatedDatagram` the cursor
reaches, after one well-framed AVP, an AVP that declares 6 bytes with 3
remaining; `data[cursor:read]` is checked against the capacity of the slice
only, and `ParseRadiusPacket` returns a packet whose second AVP holds the one
byte that arrived and three bytes of the buffer behind the datagram. -/
theorem ParseRadiusPacket_truncated_avp :
    truncatedDatagram.elems = [1, 127, 0, 27] ++ List.replicate 16 0
        ++ encodeFrame (250, [1, 2]) ++ 251 :: 6 :: [9]
      ∧ (251 :: 6 :: [9]).length < 6
      ∧ ParseRadiusPacket MD5.sum sampleMaps sampleServer (some sampleSource) truncatedDatagram
          = Run.ok ⟨{ headerPacket (fun _ => bytesOf "testing123") sampleSource truncatedDatagram
                      with AVPS := [⟨"unknown", "fallback", 4, Value.bytes [1, 2]⟩,
                        ⟨"unknown", "fallback", 6, Value.bytes [9, 0, 0, 0]⟩] }, false⟩ :=
  ⟨by decide, by decide, by decide⟩

/-- C8, the code at failing inputs.  With NAS-Port registered as `uint32`, a
23-byte datagram whose NAS-Port AVP has one content byte panics inside
`ParseUint32`; with Vendor-Specific registered as `VSA`, a 26-byte datagram
whose Vendor-Specific AVP has four content bytes panics inside `VendorParser`;
with a dictionary entry whose content type has no parser, the parser called
is nil; and the 21-byte `shortDatagram` panics at `data[cursor]` for the AVP
length, whatever the dictionaries, the parsers and the buffer behind it. -/
theorem ParseRadiusPacket_panics :
    (shortUint32Datagram.len = 23
        ∧ ParseRadiusPacket MD5.sum sampleMaps sampleServer (some sampleSource)
            shortUint32Datagram = Run.panic)
      ∧ (shortVendorDatagram.len = 26
          ∧ ParseRadiusPacket MD5.sum sampleMaps sampleServer (some sampleSource)
              shortVendorDatagram = Run.panic)
      ∧ ParseRadiusPacket MD5.sum
            (NewGoRadius [⟨1, "User-Name", "text"⟩] [] sampleMarshaller)
            sampleServer (some sampleSource) sampleDatagram = Run.panic
      ∧ ∀ (md5 : List Nat → List Nat) (m : Maps) (r : GoRadius) (source : Option UDPAddr)
          (spare : List Nat),
          (shortDatagram spare).len = 21
            ∧ ParseRadiusPacket md5 m r source (shortDatagram spare) = Run.panic := by
  refine ⟨⟨by decide, by decide⟩, ⟨by decide, by decide⟩, by decide, ?_⟩
  intro md5 m r source spare
  refine ⟨rfl, ?_⟩
  obtain ⟨ssp⟩ := r
  cases ssp with
  | none =>
    cases source <;>
      simp [ParseRadiusPacket, shortDatagram, Slice.index, Slice.slice, Slice.cap]
  | some sharedSecret =>
    cases source with
    | none => simp [ParseRadiusPacket, shortDatagram, Slice.index, Slice.slice, Slice.cap]
    | some src =>
      rw [ParseRadiusPacket_of_len md5 m sharedSecret src _ (by simp [shortDatagram, Slice.len])]
      have : parseAVPs md5 m (headerPacket sharedSecret src (shortDatagram spare))
          (shortDatagram spare) (shortDatagram spare).len 20 [] = Run.panic := by
        show parseAVPs md5 m _ (shortDatagram spare) (20 + 1) 20 [] = Run.panic
        unfold parseAVPs
        simp [shortDatagram, Slice.len, Slice.index]
      rw [this]

/-! ### `ParseUserPassword` -/

/-- The inner loop of `ParseUserPassword` writes the XOR of the chunk with the
digest, cut at its first zero byte. -/
theorem xorBlock_eq (content hash : List Nat) (i : Nat) (hhash : hash.length = 16)
    (hi : i + 16 ≤ content.length) :
    ∀ (n j : Nat) (acc : List Nat), j + n = 16 →
      xorBlock content hash i n j acc
        = some (acc ++ cutAtZero (xorBytes ((content.drop (i + j)).take n) (hash.drop j))) := by
  intro n
  induction n with
  | zero => intro j acc _; simp [xorBlock, cutAtZero, xorBytes]
  | succ n ih =>
    intro j acc hj
    have hc : i + j < content.length := by omega
    have hh : j < hash.length := by omega
    have e1 : content.drop (i + j) = content[i + j] :: content.drop (i + j + 1) :=
      List.drop_eq_getElem_cons hc
    have e2 : hash.drop j = hash[j] :: hash.drop (j + 1) := List.drop_eq_getElem_cons hh
    have ih' := ih (j + 1) (acc ++ [content[i + j] ^^^ hash[j]]) (by omega)
    have e3 : i + (j + 1) = i + j + 1 := by omega
    rw [e3] at ih'
    simp only [xorBlock, List.getElem?_eq_getElem hc, List.getElem?_eq_getElem hh, e1, e2,
      List.take_succ_cons, xorBytes, List.zipWith_cons_cons, cutAtZero]
    by_cases hz : content[i + j] ^^^ hash[j] = 0
    · simp [hz, List.takeWhile_cons]
    · rw [if_neg hz, ih']
      simp [hz, List.takeWhile_cons, xorBytes, cutAtZero]

/-- The outer loop of `ParseUserPassword` appends every decoded chunk cut at
its own first zero byte. -/
theorem passwordLoop_eq (md5 : List Nat → List Nat) (hmd5 : ∀ m, (md5 m).length = 16)
    (secret content : List Nat) :
    ∀ (n i : Nat) (secondPart ret : List Nat), i + 16 * n = content.length →
      (16 < content.length ∨ n ≤ 1) →
      passwordLoop md5 secret content n i secondPart ret
        = some (ret ++ ((plainChunks md5 secret n secondPart (content.drop i)).map
            cutAtZero).flatten) := by
  intro n
  induction n with
  | zero => intro i sp ret _ _; simp [passwordLoop, plainChunks]
  | succ n ih =>
    intro i sp ret hi hlen
    have hx := xorBlock_eq content (md5 (secret ++ sp)) i (hmd5 _) (by omega) 16 0 [] rfl
    simp only [Nat.add_zero, List.nil_append, List.drop_zero] at hx
    simp only [passwordLoop, hx, plainChunks]
    rcases hlen with hlen | hlen
    · rw [if_pos hlen, ih (i + 16) _ _ (by omega) (Or.inl hlen)]
      simp [List.drop_drop, Nat.add_comm]
    · have hn : n = 0 := by omega
      subst hn
      simp [passwordLoop, plainChunks]


/-- `ParseUserPassword` on a content of valid length. -/
theorem ParseUserPassword_eq (md5 : List Nat → List Nat) (hmd5 : ∀ m, (md5 m).length = 16)
    (content : List Nat) (r : RadiusPacket) (h16 : 16 ≤ content.length)
    (h128 : content.length ≤ 128) (hmod : content.length % 16 = 0) :
    ParseUserPassword md5 content r
      = some (Value.str ((plainChunks md5 r.SharedSecret (content.length / 16)
          (r.Authenticator.getD []) content).map cutAtZero).flatten) := by
  have h1 : ¬ content.length < 16 := by omega
  have h2 : ¬ content.length > 128 := by omega
  have h3 : ¬ content.length % 16 ≠ 0 := by omega
  have hl := passwordLoop_eq md5 hmd5 r.SharedSecret content (content.length / 16) 0
    (r.Authenticator.getD []) [] (by omega) (by omega)
  simp only [List.drop_zero, List.nil_append] at hl
  simp only [ParseUserPassword, h1, h2, h3, if_false, hl]

/-- Cutting every chunk at its first zero byte yields the non-zero prefix when
only zeros follow it. -/
theorem cutAtZero_chunks :
    ∀ (chunks : List (List Nat)) (a z : List Nat), (∀ b ∈ a, b ≠ 0) → (∀ b ∈ z, b = 0) →
      chunks.flatten = a ++ z → (chunks.map cutAtZero).flatten = a := by
  intro chunks
  induction chunks with
  | nil =>
    intro a z _ _ h
    simp only [List.flatten_nil] at h
    have := List.append_eq_nil.mp h.symm
    simp [this.1]
  | cons c cs ih =>
    intro a z ha hz h
    simp only [List.flatten_cons] at h
    simp only [List.map_cons, List.flatten_cons]
    rcases List.append_eq_append_iff.mp h with ⟨a', h1, h2⟩ | ⟨c', h1, h2⟩
    · -- the chunk lies inside `a`
      have hc : cutAtZero c = c := by
        apply List.takeWhile_eq_self_iff.mpr
        intro b hb
        have := ha b (by rw [h1]; exact List.mem_append_left _ hb)
        simpa using this
      rw [hc, ih a' z (fun b hb => ha b (by rw [h1]; exact List.mem_append_right _ hb)) hz h2,
        ← h1]
    · -- the chunk reaches into the zeros
      have hc : cutAtZero c = a := by
        rw [h1]
        unfold cutAtZero
        rw [List.takeWhile_append_of_pos (fun b hb => by simpa using ha b hb)]
        have : List.takeWhile (fun x => x != 0) c' = [] := by
          cases c' with
          | nil => rfl
          | cons x xs =>
            have := hz x (by rw [h2]; simp)
            simp [List.takeWhile_cons, this]
        rw [this, List.append_nil]
      rw [hc, ih [] cs.flatten (by simp)
        (fun b hb => hz b (by rw [h2]; exact List.mem_append_right _ hb)) (by simp),
        List.append_nil]

/-- A non-zero prefix followed by zeros is cut back to the prefix. -/
theorem cutAtZero_append (a z : List Nat) (ha : ∀ b ∈ a, b ≠ 0) (hz : ∀ b ∈ z, b = 0) :
    cutAtZero (a ++ z) = a := by
  have := cutAtZero_chunks [a ++ z] a z ha hz (by simp)
  simpa using this

/-- XOR with the same key twice is the identity. -/
theorem xorBytes_cancel : ∀ (p h : List Nat), p.length ≤ h.length →
    xorBytes (xorBytes p h) h = p := by
  intro p
  induction p with
  | nil => intro h _; simp [xorBytes]
  | cons x xs ih =>
    intro h hl
    cases h with
    | nil => simp at hl
    | cons y ys =>
      have := ih ys (by simpa using hl)
      simp only [xorBytes, List.zipWith_cons_cons, List.cons.injEq] at this ⊢
      exact ⟨Nat.xor_cancel_right y x, this⟩

/-- The length of a bytewise XOR. -/
theorem xorBytes_length (p h : List Nat) : (xorBytes p h).length = min p.length h.length := by
  simp [xorBytes]

/-- The chunks of a string of `16 * n` bytes concatenate back to it. -/
theorem chunks16_flatten : ∀ (n : Nat) (l : List Nat), l.length = 16 * n →
    (chunks16 n l).flatten = l := by
  intro n
  induction n with
  | zero => intro l h; simp [chunks16, List.length_eq_zero.mp (by simpa using h)]
  | succ n ih =>
    intro l h
    simp only [chunks16, List.flatten_cons]
    rw [ih (l.drop 16) (by simp only [List.length_drop]; omega), List.take_append_drop]

/-- The obfuscated value is as long as the padded plaintext. -/
theorem obfuscateLoop_length (md5 : List Nat → List Nat) (hmd5 : ∀ m, (md5 m).length = 16)
    (secret : List Nat) :
    ∀ (n : Nat) (previous padded : List Nat), padded.length = 16 * n →
      (obfuscateLoop md5 secret n previous padded).length = 16 * n := by
  intro n
  induction n with
  | zero => intro _ _ _; simp [obfuscateLoop]
  | succ n ih =>
    intro previous padded h
    simp only [obfuscateLoop, List.length_append, xorBytes_length, hmd5, List.length_take]
    rw [ih _ (padded.drop 16) (by simp only [List.length_drop]; omega)]
    omega

/-- Decoding the chunks of an obfuscated value gives the chunks of the padded
plaintext. -/
theorem plainChunks_obfuscateLoop (md5 : List Nat → List Nat) (hmd5 : ∀ m, (md5 m).length = 16)
    (secret : List Nat) :
    ∀ (n : Nat) (previous padded : List Nat), padded.length = 16 * n →
      plainChunks md5 secret n previous (obfuscateLoop md5 secret n previous padded)
        = chunks16 n padded := by
  intro n
  induction n with
  | zero => intro _ _ _; simp [plainChunks, chunks16]
  | succ n ih =>
    intro previous padded h
    have hc : (xorBytes (padded.take 16) (md5 (secret ++ previous))).length = 16 := by
      simp only [xorBytes_length, hmd5, List.length_take]
      omega
    simp only [obfuscateLoop, plainChunks, chunks16, List.take_left' hc, List.drop_left' hc]
    rw [xorBytes_cancel _ _ (by simp [hmd5]),
      ih _ (padded.drop 16) (by simp only [List.length_drop]; omega)]

/-- The padded plaintext is a multiple of 16 long, less than 16 bytes longer
than the plaintext. -/
theorem zeroPad_length (plaintext : List Nat) :
    (zeroPad plaintext).length = 16 * ((zeroPad plaintext).length / 16)
      ∧ plaintext.length ≤ (zeroPad plaintext).length
      ∧ (zeroPad plaintext).length < plaintext.length + 16 := by
  simp only [zeroPad, List.length_append, List.length_replicate]
  omega

/-- C9: for every shared secret, authenticator and plaintext of 1 to 128
bytes with no zero byte, `ParseUserPassword` applied to the RFC 2865 section
5.2 obfuscation of the plaintext, under the same authenticator and secret,
returns the plaintext. -/
theorem ParseUserPassword_obfuscate (md5 : List Nat → List Nat)
    (hmd5 : ∀ m, (md5 m).length = 16) (plaintext : List Nat) (r : RadiusPacket)
    (authenticator : List Nat) (hauth : r.Authenticator = some authenticator)
    (h1 : 1 ≤ plaintext.length) (h128 : plaintext.length ≤ 128)
    (hnz : ∀ b ∈ plaintext, b ≠ 0) :
    ParseUserPassword md5 (obfuscate md5 r.SharedSecret authenticator plaintext) r
      = some (Value.str plaintext) := by
  obtain ⟨hp1, hp2, hp3⟩ := zeroPad_length plaintext
  have hlen : (obfuscate md5 r.SharedSecret authenticator plaintext).length
      = (zeroPad plaintext).length := by
    unfold obfuscate
    rw [obfuscateLoop_length md5 hmd5 _ _ _ _ hp1, ← hp1]
  rw [ParseUserPassword_eq md5 hmd5 _ r (by omega) (by omega) (by omega), hlen, hauth]
  simp only [Option.getD_some]
  unfold obfuscate
  rw [plainChunks_obfuscateLoop md5 hmd5 _ _ _ _ hp1]
  rw [cutAtZero_chunks _ plaintext (List.replicate ((16 - plaintext.length % 16) % 16) 0) hnz
    (fun b hb => (List.mem_replicate.mp hb).2) (by rw [chunks16_flatten _ _ hp1]; rfl)]

/-- C9, at the plaintext `hello` under the secret `testing123`. -/
theorem ParseUserPassword_obfuscate_witness :
    passwordPacket.Authenticator = some (List.replicate 16 0)
      ∧ 1 ≤ [104, 101, 108, 108, 111].length ∧ [104, 101, 108, 108, 111].length ≤ 128
      ∧ (∀ b ∈ [104, 101, 108, 108, 111], b ≠ 0)
      ∧ ParseUserPassword MD5.sum
          (obfuscate MD5.sum passwordPacket.SharedSecret (List.replicate 16 0)
            [104, 101, 108, 108, 111]) passwordPacket
          = some (Value.str [104, 101, 108, 108, 111]) :=
  ⟨rfl, by decide, by decide, by decide,
    ParseUserPassword_obfuscate MD5.sum MD5.sum_length [104, 101, 108, 108, 111] passwordPacket
      (List.replicate 16 0) rfl (by decide) (by decide) (by decide)⟩

/-- C10 as stated fails: the two chunks of `twoChunkPassword` decode to
`ab` followed by fourteen zeros and `cd` followed by fourteen zeros; cut at
the first zero byte anywhere that is `ab`, and `ParseUserPassword` returns
`abcd`. -/
theorem ParseUserPassword_first_zero_counterexample :
    twoChunkPassword.length = 32
      ∧ plainChunks MD5.sum passwordPacket.SharedSecret 2 (List.replicate 16 0) twoChunkPassword
          = [[97, 98] ++ List.replicate 14 0, [99, 100] ++ List.replicate 14 0]
      ∧ cutAtZero ([97, 98] ++ List.replicate 14 0 ++ ([99, 100] ++ List.replicate 14 0))
          = [97, 98]
      ∧ ParseUserPassword MD5.sum twoChunkPassword passwordPacket
          = some (Value.str [97, 98, 99, 100]) :=
  ⟨by decide, by decide, by decide, by decide⟩

/-- C10, amended: for every content of valid length (16..128, a multiple of
16) `ParseUserPassword` returns the concatenation, in order, of the chunks
`p_i` each cut at its own first zero byte, where
`p_i = c_i XOR md5 (shared_secret ++ previous_block)` and `previous_block` is
the authenticator for the first chunk and `c_(i-1)` afterwards; when nothing
but zero bytes follows the first zero byte of `concat(p_i)`, that is
`concat(p_i)` cut at its first zero byte. -/
theorem ParseUserPassword_chunks (md5 : List Nat → List Nat)
    (hmd5 : ∀ m, (md5 m).length = 16) (content : List Nat) (r : RadiusPacket)
    (h16 : 16 ≤ content.length) (h128 : content.length ≤ 128)
    (hmod : content.length % 16 = 0) :
    ParseUserPassword md5 content r
        = some (Value.str ((plainChunks md5 r.SharedSecret (content.length / 16)
            (r.Authenticator.getD []) content).map cutAtZero).flatten)
      ∧ ∀ a z : List Nat, (∀ b ∈ a, b ≠ 0) → (∀ b ∈ z, b = 0) →
          (plainChunks md5 r.SharedSecret (content.length / 16)
            (r.Authenticator.getD []) content).flatten = a ++ z →
          ParseUserPassword md5 content r
            = some (Value.str (cutAtZero (plainChunks md5 r.SharedSecret (content.length / 16)
                (r.Authenticator.getD []) content).flatten)) := by
  refine ⟨ParseUserPassword_eq md5 hmd5 content r h16 h128 hmod, ?_⟩
  intro a z ha hz h
  rw [ParseUserPassword_eq md5 hmd5 content r h16 h128 hmod, cutAtZero_chunks _ a z ha hz h, h,
    cutAtZero_append a z ha hz]

/-- C10, amended, at the two-chunk content of the counterexample. -/
theorem ParseUserPassword_chunks_witness :
    16 ≤ twoChunkPassword.length ∧ twoChunkPassword.length ≤ 128
      ∧ twoChunkPassword.length % 16 = 0
      ∧ ParseUserPassword MD5.sum twoChunkPassword passwordPacket
          = some (Value.str ((plainChunks MD5.sum passwordPacket.SharedSecret
              (twoChunkPassword.length / 16) (passwordPacket.Authenticator.getD [])
              twoChunkPassword).map cutAtZero).flatten) :=
  ⟨by decide, by decide, by decide,
    (ParseUserPassword_chunks MD5.sum MD5.sum_length twoChunkPassword passwordPacket
      (by decide) (by decide) (by decide)).1⟩

/-! ### Numeric decoders -/

/-- The shifts and ors of `ParseUint32`, `AcctStatusTypeParser` and
`VendorParser` compute the big-endian value of four bytes. -/
theorem or_shift_eq_bigEndian (a0 a1 a2 a3 : Nat) (h0 : a0 < 256) (h1 : a1 < 256)
    (h2 : a2 < 256) (h3 : a3 < 256) :
    a3 ||| (a2 <<< 8) % 2 ^ 32 ||| (a1 <<< 16) % 2 ^ 32 ||| (a0 <<< 24) % 2 ^ 32
      = bigEndian [a0, a1, a2, a3] := by
  have e2 : (a2 <<< 8) % 2 ^ 32 = 2 ^ 8 * a2 := by
    rw [Nat.shiftLeft_eq, Nat.mod_eq_of_lt (by omega)]; omega
  have e1 : (a1 <<< 16) % 2 ^ 32 = 2 ^ 16 * a1 := by
    rw [Nat.shiftLeft_eq, Nat.mod_eq_of_lt (by omega)]; omega
  have e0 : (a0 <<< 24) % 2 ^ 32 = 2 ^ 24 * a0 := by
    rw [Nat.shiftLeft_eq, Nat.mod_eq_of_lt (by omega)]; omega
  rw [e2, e1, e0, Nat.or_comm a3, ← Nat.mul_add_lt_is_or (by omega) a2,
    Nat.or_comm _ (2 ^ 16 * a1), ← Nat.mul_add_lt_is_or (by omega) a1,
    Nat.or_comm _ (2 ^ 24 * a0), ← Nat.mul_add_lt_is_or (by omega) a0]
  simp only [bigEndian, List.foldl_cons, List.foldl_nil]
  omega

/-- C11: with a 16-byte digest, `ParseUserPassword` returns nil if and only
if the content length is below 16, above 128, or not a multiple of 16; for
every other content it returns a text value. -/
theorem ParseUserPassword_nil_iff (md5 : List Nat → List Nat)
    (hmd5 : ∀ m, (md5 m).length = 16) (content : List Nat) (r : RadiusPacket) :
    (ParseUserPassword md5 content r = some Value.nil ↔
        content.length < 16 ∨ 128 < content.length ∨ content.length % 16 ≠ 0)
      ∧ (¬ (content.length < 16 ∨ 128 < content.length ∨ content.length % 16 ≠ 0) →
          ∃ text, ParseUserPassword md5 content r = some (Value.str text)) := by
  by_cases h : content.length < 16 ∨ 128 < content.length ∨ content.length % 16 ≠ 0
  · refine ⟨⟨fun _ => h, fun _ => ?_⟩, fun hn => absurd h hn⟩
    unfold ParseUserPassword
    rcases h with h | h | h
    · simp [h]
    · by_cases h' : content.length < 16
      · simp [h']
      · simp [h', h]
    · by_cases h' : content.length < 16
      · simp [h']
      · by_cases h'' : content.length > 128
        · simp [h', h'']
        · simp [h', h'', h]
  · have he := ParseUserPassword_eq md5 hmd5 content r (by omega) (by omega) (by omega)
    refine ⟨⟨fun hnil => ?_, fun hc => absurd hc h⟩, fun _ => ⟨_, he⟩⟩
    rw [he] at hnil
    cases hnil

/-- C11, at a 3-byte content (nil) and at the 32-byte content (text). -/
theorem ParseUserPassword_nil_iff_witness :
    (ParseUserPassword MD5.sum [1, 2, 3] passwordPacket = some Value.nil ↔
        [1, 2, 3].length < 16 ∨ 128 < [1, 2, 3].length ∨ [1, 2, 3].length % 16 ≠ 0)
      ∧ ¬ (twoChunkPassword.length < 16 ∨ 128 < twoChunkPassword.length
          ∨ twoChunkPassword.length % 16 ≠ 0)
      ∧ ∃ text, ParseUserPassword MD5.sum twoChunkPassword passwordPacket
          = some (Value.str text) :=
  ⟨(ParseUserPassword_nil_iff MD5.sum MD5.sum_length [1, 2, 3] passwordPacket).1,
    by decide,
    (ParseUserPassword_nil_iff MD5.sum MD5.sum_length twoChunkPassword passwordPacket).2
      (by decide)⟩

/-- C14, the code at the failing input: on `[1, 2]` `ParseUint16` returns the
uint8 2 and `HelperParseUint16` returns 2, where the big-endian value is 258;
on every two bytes `[a, b]` they return `b`, the shift of the uint8 `a` by 8
being 0. -/
theorem ParseUint16_low_byte :
    ParseUint16 [1, 2] = some (Value.uint8 2) ∧ HelperParseUint16 [1, 2] = some 2
      ∧ bigEndian [1, 2] = 258
      ∧ ∀ a b : Nat, ParseUint16 [a % 256, b % 256] = some (Value.uint8 (b % 256))
          ∧ HelperParseUint16 [a % 256, b % 256] = some (b % 256) := by
  refine ⟨by decide, by decide, by decide, fun a b => ?_⟩
  have : ((a % 256) <<< 8) % 256 = 0 := by
    rw [Nat.shiftLeft_eq]; omega
  simp [ParseUint16, HelperParseUint16, this]

/-- The loop of `Uvarint` from index `i` folds in the next `8 - i` bytes. -/
theorem uvarintLoop_eq : ∀ (buf : List Nat) (i x : Nat), (∀ b ∈ buf, b < 256) → i ≤ 7 →
    x < 256 ^ i →
    uvarintLoop buf i x = (buf.take (8 - i)).foldl (fun x b => x * 256 + b) x := by
  intro buf
  induction buf with
  | nil => intro i x _ _ _; simp [uvarintLoop]
  | cons b rest ih =>
    intro i x hb hi hx
    have hb0 : b < 256 := hb b (by simp)
    have hpow : 256 ^ (i + 1) ≤ 2 ^ 64 := by
      calc 256 ^ (i + 1) ≤ 256 ^ 8 := Nat.pow_le_pow_right (by omega) (by omega)
        _ = 2 ^ 64 := by norm_num
    have hlt : x * 256 + b < 256 ^ (i + 1) := by
      rw [pow_succ]
      nlinarith
    have e : ((x <<< 8) + b) % 2 ^ 64 = x * 256 + b := by
      rw [Nat.shiftLeft_eq, Nat.mod_eq_of_lt (by omega)]
    have e8 : 8 - i = (8 - (i + 1)) + 1 := by omega
    rw [uvarintLoop, e, e8, List.take_succ_cons, List.foldl_cons]
    by_cases h7 : i = 7
    · subst h7
      simp
    · rw [if_neg h7]
      exact ih (i + 1) _ (fun c hc => hb c (by simp [hc])) (by omega) hlt

/-- C15: for every byte slice, `Uvarint` and `ParseUvarint` return the
big-endian value of its first `min(len, 8)` bytes (0 for the empty slice), and
the bytes after index 7 do not affect the result. -/
theorem Uvarint_bigEndian (buf : List Nat) (hbytes : ∀ b ∈ buf, b < 256) :
    Uvarint buf = bigEndian (buf.take (min buf.length 8))
      ∧ ParseUvarint buf = some (Value.uint64 (bigEndian (buf.take (min buf.length 8))))
      ∧ Uvarint buf = Uvarint (buf.take 8)
      ∧ ParseUvarint buf = ParseUvarint (buf.take 8) := by
  have hmin : buf.take (min buf.length 8) = buf.take 8 := by
    rcases Nat.le_total buf.length 8 with h | h
    · rw [Nat.min_eq_left h, List.take_of_length_le h, List.take_of_length_le (le_refl _)]
    · rw [Nat.min_eq_right h]
  have h1 := uvarintLoop_eq buf 0 0 hbytes (by omega) (by norm_num)
  have h2 := uvarintLoop_eq (buf.take 8) 0 0
    (fun b hb => hbytes b (List.mem_of_mem_take hb)) (by omega) (by norm_num)
  simp only [Nat.sub_zero, List.take_take, Nat.min_self] at h1 h2
  rw [hmin]
  refine ⟨h1, ?_, ?_, ?_⟩
  · simp only [ParseUvarint, h1, bigEndian]
  · simp only [Uvarint, h1, h2]
  · simp only [ParseUvarint, h1, h2]

/-- C15, at a slice of ten bytes, of which the first eight count, and at the
empty slice. -/
theorem Uvarint_bigEndian_witness :
    (∀ b ∈ [1, 2, 3, 4, 5, 6, 7, 8, 9, 10], b < 256)
      ∧ Uvarint [1, 2, 3, 4, 5, 6, 7, 8, 9, 10] = bigEndian [1, 2, 3, 4, 5, 6, 7, 8]
      ∧ bigEndian [1, 2, 3, 4, 5, 6, 7, 8] = 0x0102030405060708
      ∧ Uvarint [] = 0 :=
  ⟨by decide,
    (Uvarint_bigEndian [1, 2, 3, 4, 5, 6, 7, 8, 9, 10] (by decide)).1,
    by decide, by decide⟩

/-- C16: on four bytes of big-endian value `N`, `AcctStatusTypeParser` returns
the text `NAME(N)`, `N` in decimal, `NAME` being Start for 1, Stop for 2,
Interim-Update for 3, Accounting-On for 4, Accounting-Off for 5 and Unknown
for every other `N`. -/
theorem AcctStatusTypeParser_text (b0 b1 b2 b3 : Nat) (h0 : b0 < 256) (h1 : b1 < 256)
    (h2 : b2 < 256) (h3 : b3 < 256) :
    AcctStatusTypeParser [b0, b1, b2, b3]
      = some (Value.str (bytesOf (acctStatusName (bigEndian [b0, b1, b2, b3]) ++ "("
          ++ toString (bigEndian [b0, b1, b2, b3]) ++ ")"))) := by
  have e := or_shift_eq_bigEndian b0 b1 b2 b3 h0 h1 h2 h3
  simp only [AcctStatusTypeParser, List.getElem?_cons_succ, List.getElem?_cons_zero, e]
  generalize bigEndian [b0, b1, b2, b3] = n
  congr 6
  unfold acctStatusName
  split <;> simp_all

/-- C16, at `00 00 00 02`, which gives `Stop(2)`, and `00 00 01 00`, which
gives `Unknown(256)`. -/
theorem AcctStatusTypeParser_text_witness :
    (0 < 256 ∧ 2 < 256 ∧ 1 < 256)
      ∧ AcctStatusTypeParser [0, 0, 0, 2]
          = some (Value.str (bytesOf (acctStatusName (bigEndian [0, 0, 0, 2]) ++ "("
              ++ toString (bigEndian [0, 0, 0, 2]) ++ ")")))
      ∧ AcctStatusTypeParser [0, 0, 0, 2] = some (Value.str (bytesOf "Stop(2)"))
      ∧ AcctStatusTypeParser [0, 0, 1, 0] = some (Value.str (bytesOf "Unknown(256)")) :=
  ⟨by decide,
    AcctStatusTypeParser_text 0 0 0 2 (by decide) (by decide) (by decide) (by decide),
    (AcctStatusTypeParser_text 0 0 0 2 (by decide) (by decide) (by decide) (by decide)).trans
      (by decide),
    (AcctStatusTypeParser_text 0 0 1 0 (by decide) (by decide) (by decide) (by decide)).trans
      (by decide)⟩

/-! ### `VendorParser` and `RegisterParser` -/

/-- C12: on a VSA value of at least 6 bytes whose first four bytes are, in
big-endian, a vendor id present in the vendor dictionary, whose byte 4 is a
sub-type present in that vendor's TLV map, and whose sub-attribute's content
type has a registered decoder, `VendorParser` calls that decoder on
`bytes[6:]` and returns `{Name: the sub-attribute's name, Value: what the
decoder returned}` (and panics if the decoder does). -/
theorem VendorParser_known (vendorMap : Int → Option VendorDictionary)
    (parserMap : String → Option ContentParser)
    (call : ContentParser → List Nat → RadiusPacket → Run Value)
    (a0 a1 a2 a3 subType subLength : Nat) (subValue : List Nat) (rp : RadiusPacket)
    (v : VendorDictionary) (tlv : TLV) (parser : ContentParser)
    (h0 : a0 < 256) (h1 : a1 < 256) (h2 : a2 < 256) (h3 : a3 < 256)
    (hv : vendorMap (Int.ofNat (bigEndian [a0, a1, a2, a3])) = some v)
    (htlv : v.TLVMap (Int.ofNat subType) = some tlv)
    (hp : parserMap tlv.ContentType = some parser) :
    VendorParser vendorMap parserMap call
        (a0 :: a1 :: a2 :: a3 :: subType :: subLength :: subValue) rp
      = match call parser subValue rp with
        | Run.ok value => Run.ok (Value.vsa tlv.Name value)
        | Run.panic => Run.panic
        | Run.fuel => Run.fuel := by
  have e := or_shift_eq_bigEndian a0 a1 a2 a3 h0 h1 h2 h3
  unfold VendorParser
  simp only [List.getElem?_cons_succ, List.getElem?_cons_zero, List.drop_succ_cons,
    List.drop_zero]
  rw [e, hv]
  simp only [htlv, hp]

/-- C12, at the value `00 00 00 09 01 06 74 65 73 74` with vendor 9 (Cisco)
and sub-type 1 of content type string: the Value is `test`. -/
theorem VendorParser_known_witness :
    ((0 : Nat) < 256 ∧ (9 : Nat) < 256)
      ∧ sampleMaps.parserMap "string" = some ContentParser.ParseString
      ∧ VendorParser sampleMaps.vendorMap sampleMaps.parserMap
          (runParser MD5.sum sampleMaps.vendorMap sampleMaps.parserMap 10)
          [0x00, 0x00, 0x00, 0x09, 0x01, 0x06, 0x74, 0x65, 0x73, 0x74] passwordPacket
          = Run.ok (Value.vsa "Cisco-AVPair" (Value.str (bytesOf "test"))) :=
  ⟨by decide, rfl,
    (VendorParser_known sampleMaps.vendorMap sampleMaps.parserMap
      (runParser MD5.sum sampleMaps.vendorMap sampleMaps.parserMap 10)
      0 0 0 9 1 6 [0x74, 0x65, 0x73, 0x74] passwordPacket
      ⟨9, "Cisco", [⟨1, "Cisco-AVPair", "string"⟩], loadTLVMap [⟨1, "Cisco-AVPair", "string"⟩]⟩
      ⟨1, "Cisco-AVPair", "string"⟩ ContentParser.ParseString
      (by decide) (by decide) (by decide) (by decide) rfl rfl rfl).trans (by decide)⟩

/-- C13, the code at failing inputs: on a VSA value of 4 or of 5 bytes
`VendorParser` panics at `avpContent[4]` or `avpContent[5]`, which it reads
before it looks the vendor up, whatever the dictionaries; with the sample
dictionary, where vendor 99 is unknown, the 4-byte value `00 00 00 63` panics
and the 6-byte value `00 00 00 63 01 02` gives the empty VSA. -/
theorem VendorParser_short_value :
    (∀ (vendorMap : Int → Option VendorDictionary) (parserMap : String → Option ContentParser)
        (call : ContentParser → List Nat → RadiusPacket → Run Value) (rp : RadiusPacket),
        VendorParser vendorMap parserMap call [0, 0, 0, 99] rp = Run.panic
          ∧ VendorParser vendorMap parserMap call [0, 0, 0, 99, 1] rp = Run.panic)
      ∧ (sampleMaps.vendorMap (Int.ofNat (bigEndian [0, 0, 0, 99]))).isNone = true
      ∧ runParser MD5.sum sampleMaps.vendorMap sampleMaps.parserMap 5
          ContentParser.VendorParser [0, 0, 0, 99] passwordPacket = Run.panic
      ∧ runParser MD5.sum sampleMaps.vendorMap sampleMaps.parserMap 7
          ContentParser.VendorParser [0, 0, 0, 99, 1, 2] passwordPacket
          = Run.ok (Value.vsa "" Value.nil) := by
  refine ⟨fun vendorMap parserMap call rp => ⟨?_, ?_⟩, by decide, by decide, by decide⟩
  · simp [VendorParser]
  · simp [VendorParser]

/-- C17 as stated fails: before `NewGoRadius` has run `parserMap` is nil, the
name `octets` is not registered and the parser is not nil, and
`RegisterParser` neither returns an error nor registers the parser: the
assignment to the nil map panics. -/
theorem RegisterParser_nil_map_counterexample :
    (registryGet none "octets").isNone = true
      ∧ (RegisterParser none "octets" (some ContentParser.FallbackParser)).isNone = true :=
  ⟨rfl, rfl⟩

/-- C17, amended: `RegisterParser(name, parser)` returns an error if and only
if `name` is already registered or `parser` is nil, and then leaves the
registry unchanged; otherwise, once `NewGoRadius` has created the registry,
it returns no error, the registry afterwards maps `name` to `parser` and
every other name as before, and a further registration of `name` returns an
error. -/
theorem RegisterParser_spec (parserMap : Registry) (name : String)
    (parser : Option ContentParser) :
    ((∃ err reg, RegisterParser parserMap name parser = some (some err, reg)) ↔
        (registryGet parserMap name ≠ none ∨ parser = none))
      ∧ (∀ err reg, RegisterParser parserMap name parser = some (some err, reg) →
          reg = parserMap)
      ∧ (∀ m, parserMap = some m → ¬ (registryGet parserMap name ≠ none ∨ parser = none) →
          ∃ m', RegisterParser parserMap name parser = some (none, some m')
            ∧ m' name = parser
            ∧ (∀ key, key ≠ name → m' key = m key)
            ∧ ∀ parser', ∃ err',
                RegisterParser (some m') name parser' = some (some err', some m')) := by
  cases hn : registryGet parserMap name with
  | some g =>
    refine ⟨⟨fun _ => Or.inl (by simp), fun _ =>
      ⟨"Parser with name " ++ name ++ " is already registered\n", parserMap, ?_⟩⟩, ?_, ?_⟩
    · simp only [RegisterParser, hn]
    · intro err reg h
      simp only [RegisterParser, hn, Option.some.injEq, Prod.mk.injEq] at h
      exact h.2.symm
    · intro m _ hc
      exact absurd (Or.inl (by simp)) hc
  | none =>
    cases parser with
    | none =>
      refine ⟨⟨fun _ => Or.inr rfl, fun _ =>
        ⟨"Parser function cannot be null\n", parserMap, ?_⟩⟩, ?_, ?_⟩
      · simp only [RegisterParser, hn]
      · intro err reg h
        simp only [RegisterParser, hn, Option.some.injEq, Prod.mk.injEq] at h
        exact h.2.symm
      · intro m _ hc
        exact absurd (Or.inr rfl) hc
    | some f =>
      refine ⟨⟨fun h => ?_, fun h => ?_⟩, ?_, ?_⟩
      · obtain ⟨err, reg, h⟩ := h
        cases parserMap <;> simp [RegisterParser, hn] at h
      · rcases h with h | h
        · exact absurd rfl h
        · cases h
      · intro err reg h
        cases parserMap <;> simp [RegisterParser, hn] at h
      · intro m hm _
        subst hm
        have hn' : m name = none := hn
        refine ⟨fun key => if key = name then some f else m key, ?_, by simp,
          fun key hk => by simp [hk], fun parser' => ?_⟩
        · simp only [RegisterParser, hn]
        · refine ⟨"Parser with name " ++ name ++ " is already registered\n", ?_⟩
          simp only [RegisterParser, registryGet, if_true]

/-- C17, amended, on the registry `NewGoRadius` creates: `string` is taken, a
nil parser is refused, `octets` can be registered once. -/
theorem RegisterParser_spec_witness :
    (∃ err reg, RegisterParser (some defaultParserMap) "string"
          (some ContentParser.FallbackParser) = some (some err, reg))
      ∧ (∃ err reg, RegisterParser (some defaultParserMap) "octets" none
          = some (some err, reg))
      ∧ (∃ err reg, RegisterParser none "octets" none = some (some err, reg))
      ∧ ∃ m', RegisterParser (some defaultParserMap) "octets"
            (some ContentParser.FallbackParser) = some (none, some m')
          ∧ ∃ err', RegisterParser (some m') "octets" (some ContentParser.ParseString)
              = some (some err', some m') :=
  ⟨(RegisterParser_spec (some defaultParserMap) "string"
      (some ContentParser.FallbackParser)).1.mpr (Or.inl (by simp [registryGet, defaultParserMap])),
    (RegisterParser_spec (some defaultParserMap) "octets" none).1.mpr (Or.inr rfl),
    (RegisterParser_spec none "octets" none).1.mpr (Or.inr rfl),
    ((RegisterParser_spec (some defaultParserMap) "octets"
      (some ContentParser.FallbackParser)).2.2 defaultParserMap rfl
      (by simp [registryGet, defaultParserMap])).imp
      fun _ h => ⟨h.1, h.2.2.2 (some ContentParser.ParseString)⟩⟩

/-! ### `Marshal`: AVP section, request authenticator, verification -/

/-- The loop of `Marshal` over the AVPs appends what the registered encoders
produce, when none of them panics. -/
theorem marshalAVPs_eq (marshalMap : String → Option MarshalHelper) (p : RadiusPacket) :
    ∀ (avps : List AttributeValuePair) (acc : List Nat),
      (∀ avp ∈ avps, ∀ m, marshalMap avp.Name = some m → m avp p ≠ none) →
      marshalAVPs marshalMap p avps acc = some (acc ++ encodedAVPs marshalMap p avps) := by
  intro avps
  induction avps with
  | nil => intro acc _; simp [marshalAVPs, encodedAVPs]
  | cons avp rest ih =>
    intro acc h
    have ih' := fun acc' => ih acc' (fun a ha => h a (List.mem_cons_of_mem _ ha))
    cases hm : marshalMap avp.Name with
    | none =>
      simp only [marshalAVPs, hm, ih', encodedAVPs, List.flatMap_cons, List.nil_append]
    | some m =>
      cases hb : m avp p with
      | none => exact absurd hb (h avp (List.mem_cons_self _ _) m hm)
      | some bytes =>
        simp only [marshalAVPs, hm, hb, ih', encodedAVPs, List.flatMap_cons, Option.getD_some,
          List.append_assoc]

/-- The loop that fills a fresh authenticator writes every value to index 0:
only the last one stays. -/
theorem fillAuthenticator_eq (randInts : List Nat) :
    ∀ (n i : Nat) (auth : List Nat), i + n ≤ randInts.length →
      fillAuthenticator randInts n i auth
        = some (if n = 0 then auth else auth.set 0 (randInts.getD (i + n - 1) 0 % 256)) := by
  intro n
  induction n with
  | zero => intro i auth _; simp [fillAuthenticator]
  | succ n ih =>
    intro i auth h
    have hi : i < randInts.length := by omega
    rw [fillAuthenticator, List.getElem?_eq_getElem hi]
    simp only
    rw [ih (i + 1) _ (by omega)]
    by_cases hn : n = 0
    · subst hn
      simp [List.getD, List.getElem?_eq_getElem hi]
    · have e : i + 1 + n - 1 = i + (n + 1) - 1 := by omega
      simp [hn, e, List.set_set]


/-- A datagram built around the digest of its header, sixteen zero bytes, its
attributes and the secret verifies. -/
theorem VerifyAuthenticator_built (md5 : List Nat → List Nat)
    (hmd5 : ∀ m, (md5 m).length = 16) (q : RadiusPacket) (head attrs : List Nat)
    (hhead : head.length = 4)
    (hraw : q.Raw.elems
      = head ++ md5 (head ++ List.replicate 16 0 ++ attrs ++ q.SharedSecret) ++ attrs) :
    VerifyAuthenticator md5 q = some true := by
  have h20 : (head ++ md5 (head ++ List.replicate 16 0 ++ attrs ++ q.SharedSecret)).length
      = 20 := by simp [hmd5, hhead]
  have hlen : 20 ≤ q.Raw.len := by
    simp only [Slice.len, hraw, List.length_append, h20] at h20 ⊢
    omega
  rw [VerifyAuthenticator_eq md5 hmd5 q hlen, hraw]
  have e1 : List.take 4 (head ++ md5 (head ++ List.replicate 16 0 ++ attrs ++ q.SharedSecret)
      ++ attrs) = head := by
    rw [List.append_assoc]
    exact List.take_left' hhead
  have e2 : List.drop 4 (head ++ md5 (head ++ List.replicate 16 0 ++ attrs ++ q.SharedSecret)
      ++ attrs) = md5 (head ++ List.replicate 16 0 ++ attrs ++ q.SharedSecret) ++ attrs := by
    rw [List.append_assoc]
    exact List.drop_left' hhead
  have e3 : List.drop 20 (head ++ md5 (head ++ List.replicate 16 0 ++ attrs ++ q.SharedSecret)
      ++ attrs) = attrs := List.drop_left' h20
  rw [e1, e2, e3, List.take_left' (hmd5 _)]
  simp

/-- C18: when `rand.Perm(16)` has returned its 16 values and no registered
encoder panics on the packet's AVPs, `Marshal` returns, and its output from
offset 20 is the concatenation, in AVP list order, of `encoder(avp, p)` for
the AVPs whose Name has a registered encoder; the other AVPs contribute no
bytes. -/
theorem Marshal_avp_section (md5 : List Nat → List Nat) (hmd5 : ∀ m, (md5 m).length = 16)
    (marshalMap : String → Option MarshalHelper) (randInts : List Nat) (p : RadiusPacket)
    (hrand : randInts.length = 16)
    (henc : ∀ avp ∈ p.AVPS, ∀ m, marshalMap avp.Name = some m → m avp p ≠ none) :
    ∃ out p', Marshal md5 marshalMap randInts p = some (out, p')
      ∧ out.drop 20 = encodedAVPs marshalMap p p.AVPS := by
  have hV := marshalAVPs_eq marshalMap p p.AVPS [] henc
  simp only [List.nil_append] at hV
  cases hA : p.Authenticator with
  | none =>
    have hf := fillAuthenticator_eq randInts 16 0 (List.replicate 16 0) (by omega)
    simp only [Marshal, hV, hA, hf]
    refine ⟨_, _, rfl, ?_⟩
    rw [List.drop_left']
    simp
  | some A =>
    simp only [Marshal, hV, hA]
    refine ⟨_, _, rfl, ?_⟩
    rw [List.drop_left']
    simp [hmd5]

/-- C18, at the sample request, whose second AVP has no encoder. -/
theorem Marshal_avp_section_witness :
    samplePerm.length = 16
      ∧ (∀ avp ∈ sampleRequest.AVPS, ∀ m, sampleMaps.marshalMap avp.Name = some m →
          m avp sampleRequest ≠ none)
      ∧ encodedAVPs sampleMaps.marshalMap sampleRequest sampleRequest.AVPS
          = [1, 6, 117, 115, 101, 114]
      ∧ ∃ out p', Marshal MD5.sum sampleMaps.marshalMap samplePerm sampleRequest = some (out, p')
          ∧ out.drop 20 = encodedAVPs sampleMaps.marshalMap sampleRequest sampleRequest.AVPS :=
  ⟨rfl, by decide, by decide,
    Marshal_avp_section MD5.sum MD5.sum_length sampleMaps.marshalMap samplePerm sampleRequest
      rfl (by decide)⟩

/-- C19, the code at the failing input: for the sample request, whose
Authenticator is nil, and the permutation `samplePerm`, `Marshal` emits at
offsets 4..20 the byte 14 (the last value drawn) followed by fifteen zero
bytes, and leaves that in the packet; the bytes of `samplePerm` are
3, 1, 4, 15, ... -/
theorem Marshal_request_authenticator :
    sampleRequest.Authenticator = none
      ∧ (Marshal MD5.sum sampleMaps.marshalMap samplePerm sampleRequest).map Prod.fst
          = some ([1, 7, 0, 26] ++ ([14] ++ List.replicate 15 0) ++ [1, 6, 117, 115, 101, 114])
      ∧ (Marshal MD5.sum sampleMaps.marshalMap samplePerm sampleRequest).map
            (fun r => r.2.Authenticator)
          = some (some ([14] ++ List.replicate 15 0))
      ∧ samplePerm.map (· % 256) = [3, 1, 4, 15, 9, 2, 6, 5, 0, 8, 7, 10, 11, 12, 13, 14] := by
  refine ⟨rfl, by decide, by decide, by decide⟩

/-- C20: for a packet whose Authenticator is sixteen zero bytes and whose
encoders produce `V`, `Marshal` returns bytes `b` such that every packet with
`Raw = b` and the same SharedSecret makes `VerifyAuthenticator` return true. -/
theorem Marshal_verifies (md5 : List Nat → List Nat) (hmd5 : ∀ m, (md5 m).length = 16)
    (marshalMap : String → Option MarshalHelper) (randInts : List Nat) (p : RadiusPacket)
    (V : List Nat) (hA : p.Authenticator = some (List.replicate 16 0))
    (hV : marshalAVPs marshalMap p p.AVPS [] = some V) :
    ∃ b p', Marshal md5 marshalMap randInts p = some (b, p')
      ∧ ∀ q : RadiusPacket, q.Raw.elems = b → q.SharedSecret = p.SharedSecret →
          VerifyAuthenticator md5 q = some true := by
  simp only [Marshal, hV, hA]
  refine ⟨_, _, rfl, ?_⟩
  intro q hraw hsecret
  refine VerifyAuthenticator_built md5 hmd5 q
    ([p.Code % 256, p.PacketId % 256] ++ [(4 + 16 + V.length % 65536) % 65536 / 256,
      (4 + 16 + V.length % 65536) % 65536 % 256]) V rfl ?_
  rw [hraw, hsecret]
  rfl

/-- C20, at the sample Accounting-Response. -/
theorem Marshal_verifies_witness :
    sampleZeroResponse.Authenticator = some (List.replicate 16 0)
      ∧ marshalAVPs sampleMaps.marshalMap sampleZeroResponse sampleZeroResponse.AVPS []
          = some [1, 6, 117, 115, 101, 114]
      ∧ ∃ b p', Marshal MD5.sum sampleMaps.marshalMap [] sampleZeroResponse = some (b, p')
          ∧ ∀ q : RadiusPacket, q.Raw.elems = b →
              q.SharedSecret = sampleZeroResponse.SharedSecret →
              VerifyAuthenticator MD5.sum q = some true :=
  ⟨rfl, by decide,
    Marshal_verifies MD5.sum MD5.sum_length sampleMaps.marshalMap [] sampleZeroResponse
      [1, 6, 117, 115, 101, 114] rfl (by decide)⟩

end Radius
